import Mathlib

/-!
Verification of the Reedstreams backend core against its specification.

Shallow embedding of the Rust sources:
  * `src/server/services/ppvsu_services.rs`       (ROT-71, protobuf, ChaCha20 decryptor)
  * `src/server/services/rate_limit_services.rs`  (per-client rate limiting / error timeouts)
  * `src/server/services/proxy_cache_services.rs` (segment cache, prefetch)
  * `src/server/api/proxy_controller.rs`          (URL decode, range slicing, playlist rewrite)
  * `src/server/utils/signature_utils.rs`         (HMAC-SHA256 signing / verification)
  * `src/server/extractors/edge_authentication_extractor.rs` (client identifiers)

Machine integers are modelled as `Nat` with explicit reduction modulo `2 ^ w`
where overflow matters.  Byte strings are `List Nat` with every element below
256.  Fallible Rust functions become `Option` / `Except`.
-/

/-! ## ROT-71 decode (`ppvsu_services.rs`, `rot71_decode`) -/

/-- One character of the ROT-71 transform.  Mirrors the closure inside
`rot71_decode`: code points in `[33, 126]` rotate by 71 inside the 94-wide
window; everything else passes through.  The Rust `char::from_u32(..).unwrap_or(c)`
never takes its fallback because `33 + x % 94 ≤ 126` is always a valid scalar. -/
def rot71Char (c : Char) : Char :=
  let code := c.toNat
  if 33 ≤ code ∧ code ≤ 126 then
    Char.ofNat (33 + ((code - 33) + 71) % 94)
  else
    c

/-- `rot71_decode`: `input.chars().map(..).collect()`. -/
def rot71_decode (s : String) : String :=
  String.mk (s.data.map rot71Char)

/-! ## Client identifiers (`edge_authentication_extractor.rs`, `generate_client_id`) -/

/-- Lowercase hex digit. -/
def hexDigit (n : Nat) : Char :=
  if n < 10 then Char.ofNat (48 + n) else Char.ofNat (97 + (n - 10))

/-- Rust `format!("{:x}", n)`: lowercase hex, no leading zeros, "0" for zero. -/
def natToHex (n : Nat) : String :=
  String.mk (go n [])
where
  go : Nat → List Char → List Char
    | 0, acc => if acc.isEmpty then [ '0' ] else acc
    | n + 1, acc => go ((n + 1) / 16) (hexDigit ((n + 1) % 16) :: acc)

/-- The state-passing interface of Rust's `std::collections::hash_map::DefaultHasher`
(SipHash-1-3, external to this repository): an initial state, a transition fed by a
string (`str::hash` writes the UTF-8 bytes followed by `0xFF`), and `finish`. -/
structure RustHasher where
  init : Nat
  writeStr : Nat → String → Nat
  finish : Nat → Nat

/-- `generate_client_id`: hash `(ip, user_agent)` with missing values replaced by
the literal `"unknown"`, then format the 64-bit digest as lowercase hex. -/
def generate_client_id (H : RustHasher) (ip : Option String) (user_agent : Option String) :
    String :=
  let h0 := H.init
  let h1 := H.writeStr h0 (ip.getD "unknown")
  let h2 := H.writeStr h1 (user_agent.getD "unknown")
  natToHex (H.finish h2)

/-! ## Rate limiter (`rate_limit_services.rs`) -/

/-- `RateLimitConfig` with the `Default` impl values. -/
structure RateLimitConfig where
  max_requests_per_window : Nat
  window_seconds : Nat
  max_errors_before_timeout : Nat
  error_window_seconds : Nat
  timeout_duration_seconds : Nat
deriving Repr, DecidableEq

def RateLimitConfig.default : RateLimitConfig :=
  { max_requests_per_window := 500
    window_seconds := 60
    max_errors_before_timeout := 50
    error_window_seconds := 600
    timeout_duration_seconds := 300 }

/-- `RateLimitResult`. -/
inductive RateLimitResult where
  | Allowed (remaining : Nat) (reset_at : Int)
  | RateLimited (retry_after : Nat)
  | TimedOut (reason : String) (retry_after : Nat)
deriving Repr, DecidableEq

/-- The three per-client keys in the KV store (`edge_rate_limit:<id>`,
`edge_error_count:<id>`, `edge_timeout:<id>`), each an optional value paired
with its remaining TTL in seconds. -/
structure ClientKV where
  rate : Option (Nat × Int)
  errors : Option (Nat × Int)
  timeout : Option (String × Int)
deriving Repr, DecidableEq

def ClientKV.empty : ClientKV := ⟨none, none, none⟩

/-- The atomic `INCR key; EXPIRE key window; TTL key` pipeline of
`check_rate_limit` (and the INCR+EXPIRE part of `record_error`): INCR creates
the key at 1 or bumps the stored integer; EXPIRE resets the TTL to the window,
so the subsequent TTL read returns the window.  Returns `(count, ttl, entry)`. -/
def incrExpireTtl (entry : Option (Nat × Int)) (window : Nat) :
    Nat × Int × Option (Nat × Int) :=
  let count := match entry with
    | some (c, _) => c + 1
    | none => 1
  (count, (window : Int), some (count, (window : Int)))

/-- `is_user_timed_out`: pipeline `GET timeout_key; TTL timeout_key`; reports the
reason and TTL only when the value is present with a positive TTL. -/
def is_user_timed_out (kv : ClientKV) : Option (String × Int) :=
  match kv.timeout with
  | some (reason, ttl) => if ttl > 0 then some (reason, ttl) else none
  | none => none

/-- `check_rate_limit`.  `timeoutKvError` models a Redis error in the
`is_user_timed_out` pipeline (source logs it and treats it as "no timeout");
`pipeError` models a Redis error in the INCR/EXPIRE/TTL pipeline (source
fail-opens with `Allowed { remaining: 0 }`).  `now` is the current unix time
(`chrono::Utc::now().timestamp()`). -/
def check_rate_limit (cfg : RateLimitConfig) (now : Int)
    (timeoutKvError pipeError : Bool) (kv : ClientKV) : RateLimitResult × ClientKV :=
  match if timeoutKvError then none else is_user_timed_out kv with
  | some (reason, ttl) => (.TimedOut reason ttl.toNat, kv)
  | none =>
    if pipeError then
      (.Allowed 0 (now + (cfg.window_seconds : Int)), kv)
    else
      let res := incrExpireTtl kv.rate cfg.window_seconds
      let count := res.1
      let ttl := res.2.1
      let reset_at := now + ttl
      if count > cfg.max_requests_per_window then
        (.RateLimited (max ttl 1).toNat, { kv with rate := res.2.2 })
      else
        (.Allowed (cfg.max_requests_per_window - count) reset_at,
         { kv with rate := res.2.2 })

/-- The reason string of the automatic timeout:
`format!("Automatic timeout: {} errors in {} seconds", count, error_window_seconds)`. -/
def autoTimeoutReason (count : Nat) (window : Nat) : String :=
  "Automatic timeout: " ++ toString count ++ " errors in " ++ toString window ++ " seconds"

/-- `timeout_user`: `SETEX timeout_key reason duration`. -/
def timeout_user (kv : ClientKV) (reason : String) (duration : Nat) : ClientKV :=
  { kv with timeout := some (reason, (duration : Int)) }

/-- `record_error`: atomic `INCR error_key; EXPIRE error_key 600`; when the new
count reaches `max_errors_before_timeout`, apply `timeout_user` with the
automatic reason and `timeout_duration_seconds`. -/
def record_error (cfg : RateLimitConfig) (kv : ClientKV) : ClientKV :=
  let res := incrExpireTtl kv.errors cfg.error_window_seconds
  let count := res.1
  let kv1 := { kv with errors := res.2.2 }
  if count ≥ cfg.max_errors_before_timeout then
    timeout_user kv1 (autoTimeoutReason count cfg.error_window_seconds)
      cfg.timeout_duration_seconds
  else
    kv1

/-- Redis TTL decay: after `t` seconds every key loses `t` from its TTL and
expires (is deleted) once the TTL is no longer positive. -/
def ageEntry {α : Type} (t : Int) : Option (α × Int) → Option (α × Int)
  | some (v, ttl) => if ttl - t > 0 then some (v, ttl - t) else none
  | none => none

def ageKV (t : Int) (kv : ClientKV) : ClientKV :=
  ⟨ageEntry t kv.rate, ageEntry t kv.errors, ageEntry t kv.timeout⟩

/-- KV state after `n` healthy `check_rate_limit` calls inside one window
(starting from a fresh client). -/
def kvAfterChecks (cfg : RateLimitConfig) (now : Int) : Nat → ClientKV
  | 0 => ClientKV.empty
  | n + 1 => (check_rate_limit cfg now false false (kvAfterChecks cfg now n)).2

/-- Result of the `n`-th `check_rate_limit` call (`1 ≤ n`) inside one window. -/
def nthCheck (cfg : RateLimitConfig) (now : Int) (n : Nat) : RateLimitResult :=
  (check_rate_limit cfg now false false (kvAfterChecks cfg now (n - 1))).1

/-- KV state after `k` `record_error` calls (fresh client, same instant). -/
def kvAfterErrors (cfg : RateLimitConfig) : Nat → ClientKV
  | 0 => ClientKV.empty
  | k + 1 => record_error cfg (kvAfterErrors cfg k)

theorem kvAfterChecks_spec (now : Int) (n : Nat) :
    kvAfterChecks RateLimitConfig.default now n =
      { rate := if n = 0 then none else some (n, 60), errors := none, timeout := none } := by
  induction n with
  | zero => rfl
  | succ m ih =>
    rw [kvAfterChecks, ih]
    by_cases hm0 : m = 0
    · subst hm0
      simp [check_rate_limit, is_user_timed_out, incrExpireTtl, RateLimitConfig.default]
    · simp [check_rate_limit, is_user_timed_out, incrExpireTtl,
        RateLimitConfig.default, hm0]
      split <;> rfl

theorem kvAfterErrors_spec (k : Nat) :
    kvAfterErrors RateLimitConfig.default k =
      { rate := none,
        errors := if k = 0 then none else some (k, 600),
        timeout := if k < 50 then none else some (autoTimeoutReason k 600, 300) } := by
  induction k with
  | zero => rfl
  | succ m ih =>
    rw [kvAfterErrors, ih]
    by_cases hm0 : m = 0
    · subst hm0
      simp [record_error, incrExpireTtl, timeout_user, RateLimitConfig.default]
    · rcases Nat.lt_or_ge (m + 1) 50 with h | h
      · have h2 : ¬ (50 ≤ m + 1) := by omega
        have h3 : m < 50 := by omega
        simp [record_error, incrExpireTtl, timeout_user, RateLimitConfig.default,
          hm0, h, h2, h3]
      · have h2 : ¬ (m + 1 < 50) := by omega
        simp [record_error, incrExpireTtl, timeout_user, RateLimitConfig.default,
          hm0, h, h2]

/-- `Char.ofNat` on a scalar below the surrogate range round-trips through `toNat`. -/
theorem char_toNat_ofNat_lt (n : Nat) (h : n < 55296) : (Char.ofNat n).toNat = n := by
  simp [Char.ofNat, Char.toNat, Nat.isValidChar, h, Char.ofNatAux, UInt32.toNat,
    BitVec.toNat_ofNatLt]

/-- C9: `rot71_decode` maps each character with code point in `[33, 126]` to the
character with code point `33 + ((code − 33) + 71) mod 94`, leaves every other
character unchanged, preserves the length, and in particular sends `'!'` to
`'h'`, `'~'` to `'g'`, and leaves a space unchanged. -/
theorem C9_rot71_transform (s : String) (c : Char) :
    (rot71_decode s).length = s.length ∧
    (rot71_decode s).data = s.data.map rot71Char ∧
    (rot71Char c).toNat =
      (if 33 ≤ c.toNat ∧ c.toNat ≤ 126 then 33 + ((c.toNat - 33) + 71) % 94
       else c.toNat) ∧
    rot71_decode "!" = "h" ∧ rot71_decode "~" = "g" ∧ rot71_decode " " = " " := by
  refine ⟨?_, rfl, ?_, by decide, by decide, by decide⟩
  · have h0 : (rot71_decode s).length = (s.data.map rot71Char).length := rfl
    rw [h0, List.length_map]
    rfl
  · unfold rot71Char
    by_cases h : 33 ≤ c.toNat ∧ c.toNat ≤ 126
    · rw [if_pos h, if_pos h]
      exact char_toNat_ofNat_lt _ (by omega)
    · rw [if_neg h, if_neg h]

/-- C10: `generate_client_id` is a total function of its two optional arguments
(in this embedding by construction), and a missing IP or User-Agent is
indistinguishable from the literal string "unknown": swapping `none` for
`some "unknown"` in either argument yields the same client id, for any
underlying hasher. -/
theorem C10_client_id_unknown_collapse (H : RustHasher) (ip ua : Option String) :
    generate_client_id H none ua = generate_client_id H (some "unknown") ua ∧
    generate_client_id H ip none = generate_client_id H ip (some "unknown") := by
  exact ⟨rfl, rfl⟩

/-- C4: for a client with no timeout record, the `n`-th `check_rate_limit` call
within one 60-second window returns `Allowed` with `remaining = 500 − n` while
`n ≤ 500` and `RateLimited` with `retry_after = max(ttl, 1) = 60 ≥ 1` from the
501st call on; a failing INCR/EXPIRE/TTL pipeline fail-opens to
`Allowed { remaining := 0 }`. -/
theorem C4_rate_limit_window (now : Int) (n : Nat) (h1 : 1 ≤ n) :
    nthCheck RateLimitConfig.default now n =
      (if n ≤ 500 then .Allowed (500 - n) (now + 60) else .RateLimited 60) ∧
    (max (60 : Int) 1).toNat = 60 ∧ 1 ≤ (max (60 : Int) 1).toNat ∧
    (∀ kv : ClientKV, kv.timeout = none →
      (check_rate_limit RateLimitConfig.default now false true kv).1 =
        .Allowed 0 (now + 60)) := by
  refine ⟨?_, by decide, by decide, ?_⟩
  · unfold nthCheck
    rw [kvAfterChecks_spec]
    by_cases hn1 : n = 1
    · subst hn1
      norm_num [check_rate_limit, is_user_timed_out, incrExpireTtl,
        RateLimitConfig.default]
    · have hn : ¬ (n - 1 = 0) := by omega
      have hnn : n - 1 + 1 = n := by omega
      simp only [check_rate_limit, is_user_timed_out, incrExpireTtl,
        RateLimitConfig.default, if_neg hn]
      by_cases h5 : 500 < n
      · have h6 : ¬ (n ≤ 500) := by omega
        simp [hnn, h5, h6]
      · have h6 : n ≤ 500 := by omega
        simp [hnn, h5, h6]
  · intro kv hkv
    simp [check_rate_limit, is_user_timed_out, hkv, RateLimitConfig.default]

/-- Witness for C4: the 501st call in one window is rate-limited. -/
theorem C4_rate_limit_window_witness :
    nthCheck RateLimitConfig.default 0 501 =
      (if 501 ≤ 500 then .Allowed (500 - 501) ((0 : Int) + 60) else .RateLimited 60) :=
  (C4_rate_limit_window 0 501 (by decide)).1

/-- KV state of a client `t` seconds after its `k`-th `record_error` call. -/
def kvErrorsAged (k : Nat) (t : Int) : ClientKV :=
  ageKV t (kvAfterErrors RateLimitConfig.default k)

/-- C5: after `k ≥ 50` `record_error` calls inside the 600-second error window a
timeout record with a 300-second TTL is stored, and for the following
`t < 300` seconds `check_rate_limit` returns `TimedOut` with the stored reason
and `retry_after` equal to the remaining TTL — never `Allowed` or
`RateLimited`. -/
theorem C5_error_threshold_timeout (k : Nat) (t now : Int) (hk : 50 ≤ k)
    (ht0 : 0 ≤ t) (ht : t < 300) :
    (kvErrorsAged k t).timeout = some (autoTimeoutReason k 600, 300 - t) ∧
    (check_rate_limit RateLimitConfig.default now false false (kvErrorsAged k t)).1 =
      .TimedOut (autoTimeoutReason k 600) (300 - t).toNat ∧
    (∀ r a, (check_rate_limit RateLimitConfig.default now false false
        (kvErrorsAged k t)).1 ≠ .Allowed r a) ∧
    (∀ r, (check_rate_limit RateLimitConfig.default now false false
        (kvErrorsAged k t)).1 ≠ .RateLimited r) := by
  have hk0 : ¬ (k = 0) := by omega
  have hk50 : ¬ (k < 50) := by omega
  have htpos : (300 : Int) - t > 0 := by omega
  have htimeout : (kvErrorsAged k t).timeout = some (autoTimeoutReason k 600, 300 - t) := by
    unfold kvErrorsAged
    rw [kvAfterErrors_spec]
    simp [ageKV, ageEntry, hk50, htpos]
  have hcheck : (check_rate_limit RateLimitConfig.default now false false
      (kvErrorsAged k t)).1 = .TimedOut (autoTimeoutReason k 600) (300 - t).toNat := by
    simp [check_rate_limit, is_user_timed_out, htimeout, htpos]
  refine ⟨htimeout, hcheck, ?_, ?_⟩
  · intro r a
    rw [hcheck]
    intro hcontra
    exact RateLimitResult.noConfusion hcontra
  · intro r
    rw [hcheck]
    intro hcontra
    exact RateLimitResult.noConfusion hcontra

/-- Witness for C5: exactly at the threshold (50 errors, immediately after). -/
theorem C5_error_threshold_timeout_witness :
    (kvErrorsAged 50 0).timeout = some (autoTimeoutReason 50 600, 300 - 0) ∧
    (check_rate_limit RateLimitConfig.default 0 false false (kvErrorsAged 50 0)).1 =
      .TimedOut (autoTimeoutReason 50 600) ((300 : Int) - 0).toNat :=
  ⟨(C5_error_threshold_timeout 50 0 0 (by decide) (by decide) (by decide)).1,
   (C5_error_threshold_timeout 50 0 0 (by decide) (by decide) (by decide)).2.1⟩

/-! ## Range slicing (`proxy_controller.rs`, `proxy_get`, binary branch)

Rust strings are modelled as `List Char` from here on, with kernel-executable
helpers replacing the `str` methods used by the source. -/

/-- Rust `str::split('-')`: split at every separator, keeping empty pieces. -/
def splitOnSep (sep : Char) : List Char → List (List Char)
  | [] => [[]]
  | c :: rest =>
    if c = sep then
      [] :: splitOnSep sep rest
    else
      match splitOnSep sep rest with
      | [] => [[ c ]]
      | h :: t => (c :: h) :: t

/-- Rust `str::parse::<usize>()`: optional leading `'+'`, then one or more
ASCII digits, value below `2 ^ 64` (overflow is a parse error). -/
def parseUsize (s : List Char) : Option Nat :=
  let t := match s with
    | '+' :: rest => rest
    | _ => s
  if t.isEmpty then none
  else if t.all (fun c => 48 ≤ c.toNat ∧ c.toNat ≤ 57) then
    let n := t.foldl (fun acc c => acc * 10 + (c.toNat - 48)) 0
    if n < 2 ^ 64 then some n else none
  else none

/-- Decimal rendering of a `Nat` (Rust `Display`), via fuel so that the kernel
can evaluate it. -/
def natToDecAux : Nat → Nat → List Char → List Char
  | 0, _, acc => acc
  | fuel + 1, n, acc =>
    if n = 0 then acc else natToDecAux fuel (n / 10) (Char.ofNat (48 + n % 10) :: acc)

def natToDec (n : Nat) : List Char :=
  if n = 0 then [ '0' ] else natToDecAux (n + 1) n []

/-- Response status of the binary branch. -/
inductive HStatus where
  | ok
  | partialContent
deriving Repr, DecidableEq

/-- The range-slicing block of `proxy_get` (`proxy_controller.rs` lines
375–411): given the client's `Range` header (if any) and the decompressed
body, produce `(response_bytes, status_code, content_range_header)`.
`parts[0].parse().unwrap_or(0)`, `parts[1]` empty or unparseable defaults to
`total_len - 1` (`saturating_sub` is `Nat` subtraction), the end is clamped,
and the slice `full_bytes[start..=end]` is `(drop start).take (end-start+1)`. -/
def range_slice (rangeHeader : Option (List Char)) (full_bytes : List Nat) :
    List Nat × HStatus × Option (List Char) :=
  let total_len := full_bytes.length
  match rangeHeader with
  | none => (full_bytes, .ok, none)
  | some range_str =>
    if "bytes=".data.isPrefixOf range_str then
      let range_part := range_str.drop 6
      let parts := splitOnSep '-' range_part
      if parts.length = 2 then
        let start := (parseUsize (parts.getD 0 [])).getD 0
        let e := if (parts.getD 1 []).isEmpty then total_len - 1
                 else (parseUsize (parts.getD 1 [])).getD (total_len - 1)
        let e := min e (total_len - 1)
        if start < total_len ∧ start ≤ e then
          ((full_bytes.drop start).take (e - start + 1), .partialContent,
           some ("bytes ".data ++ natToDec start ++ [ '-' ] ++ natToDec e ++
             [ '/' ] ++ natToDec total_len))
        else
          (full_bytes, .ok, none)
      else
        (full_bytes, .ok, none)
    else
      (full_bytes, .ok, none)

/-- The amended claim, written from its own words: a `Range` header of the
exact shape `bytes=a-b`; a missing **or unparseable** `a` parses to 0; a
missing or unparseable `b` parses to `N − 1`; the end is clamped to `N − 1`;
if `start < N` and `start ≤ end` respond 206 with `bytes[start..=end]` and
`Content-Range: bytes start-end/N`; in every other case respond 200 with the
full body and no `Content-Range`. -/
def claimedRangeResponse (rangeHeader : Option (List Char)) (body : List Nat) :
    List Nat × HStatus × Option (List Char) :=
  let N := body.length
  let parsed : Option (List Char × List Char) :=
    match rangeHeader with
    | none => none
    | some h =>
      if "bytes=".data.isPrefixOf h then
        match splitOnSep '-' (h.drop 6) with
        | [a, b] => some (a, b)
        | _ => none
      else none
  match parsed with
  | some (a, b) =>
    let start := (parseUsize a).getD 0
    let e := min (if b.isEmpty then N - 1 else (parseUsize b).getD (N - 1)) (N - 1)
    if start < N ∧ start ≤ e then
      ((body.drop start).take (e - start + 1), .partialContent,
       some ("bytes ".data ++ natToDec start ++ [ '-' ] ++ natToDec e ++
         [ '/' ] ++ natToDec N))
    else
      (body, .ok, none)
  | none => (body, .ok, none)

/-- C6 counterexample: an unparseable (non-missing) start falls back to 0 in
the code and yields a 206 partial response, where the claim as stated places
such a request in its catch-all "every other case" demanding a 200 with the
full body.  `Range: bytes=x-0` against a 2-byte body. -/
theorem C6_counterexample_unparseable_start :
    range_slice (some "bytes=x-0".data) [7, 8] =
      ([7], .partialContent, some "bytes 0-0/2".data) ∧
    range_slice (some "bytes=x-0".data) [7, 8] ≠ ([7, 8], .ok, none) := by
  constructor
  · rfl
  · decide

/-- C6 (amended): the range-slicing block behaves exactly as the claim with
"missing start" relaxed to "missing or unparseable start"; concretely
exercised on `bytes=2-5` over a 10-byte body. -/
theorem C6_range_slice_spec (rangeHeader : Option (List Char)) (body : List Nat) :
    range_slice rangeHeader body = claimedRangeResponse rangeHeader body ∧
    range_slice (some "bytes=2-5".data) (List.range 10) =
      ([2, 3, 4, 5], .partialContent, some "bytes 2-5/10".data) := by
  constructor
  · unfold range_slice claimedRangeResponse
    match rangeHeader with
    | none => rfl
    | some h =>
      by_cases hp : "bytes=".data.isPrefixOf h
      · simp only [hp, if_true]
        match hparts : splitOnSep '-' (h.drop 6) with
        | [] => simp [hparts]
        | [a] => simp [hparts]
        | [a, b] => simp [hparts]
        | a :: b :: c :: t => simp [hparts]
      · simp [hp]
  · rfl

/-! ## UTF-8 (byte representation of Rust strings) -/

/-- `Char.ofNat` inverts `Char.toNat`. -/
theorem char_ofNat_toNat (c : Char) : Char.ofNat c.toNat = c := by
  have h : Nat.isValidChar c.toNat := c.valid
  unfold Char.ofNat
  rw [dif_pos h]
  exact Char.ext rfl

/-- UTF-8 encoding of one scalar value. -/
def utf8EncodeCharN (n : Nat) : List Nat :=
  if n < 128 then [n]
  else if n < 2048 then [192 + n / 64, 128 + n % 64]
  else if n < 65536 then [224 + n / 4096, 128 + (n / 64) % 64, 128 + n % 64]
  else [240 + n / 262144, 128 + (n / 4096) % 64, 128 + (n / 64) % 64, 128 + n % 64]

def utf8EncodeChar (c : Char) : List Nat := utf8EncodeCharN c.toNat

/-- UTF-8 bytes of a Rust string (`str::as_bytes`). -/
def utf8Encode : List Char → List Nat
  | [] => []
  | c :: rest => utf8EncodeChar c ++ utf8Encode rest

/-- Strict UTF-8 decoding of one scalar value, returning the character and the
remaining input; rejects overlong forms, surrogates and out-of-range values
exactly as Rust's `str::from_utf8` validation does. -/
def utf8DecodeOne : List Nat → Option (Char × List Nat)
  | [] => none
  | b0 :: rest =>
    if b0 < 128 then some (Char.ofNat b0, rest)
    else if b0 < 194 then none
    else if b0 < 224 then
      match rest with
      | b1 :: rest1 =>
        if 128 ≤ b1 ∧ b1 < 192 then
          some (Char.ofNat ((b0 - 192) * 64 + (b1 - 128)), rest1)
        else none
      | [] => none
    else if b0 < 240 then
      match rest with
      | b1 :: b2 :: rest2 =>
        if (if b0 = 224 then 160 ≤ b1 ∧ b1 < 192
            else if b0 = 237 then 128 ≤ b1 ∧ b1 < 160
            else 128 ≤ b1 ∧ b1 < 192) ∧ 128 ≤ b2 ∧ b2 < 192 then
          some (Char.ofNat ((b0 - 224) * 4096 + (b1 - 128) * 64 + (b2 - 128)), rest2)
        else none
      | _ => none
    else if b0 < 245 then
      match rest with
      | b1 :: b2 :: b3 :: rest3 =>
        if (if b0 = 240 then 144 ≤ b1 ∧ b1 < 192
            else if b0 = 244 then 128 ≤ b1 ∧ b1 < 144
            else 128 ≤ b1 ∧ b1 < 192) ∧ 128 ≤ b2 ∧ b2 < 192 ∧ 128 ≤ b3 ∧ b3 < 192 then
          some (Char.ofNat
            ((b0 - 240) * 262144 + (b1 - 128) * 4096 + (b2 - 128) * 64 + (b3 - 128)),
            rest3)
        else none
      | _ => none
    else none

/-- Strict UTF-8 decoding (`String::from_utf8`), fuelled so that the kernel can
evaluate it; the fuel is an upper bound on the number of decoded characters. -/
def utf8DecodeAux : Nat → List Nat → Option (List Char)
  | _, [] => some []
  | 0, _ :: _ => none
  | fuel + 1, b :: rest =>
    match utf8DecodeOne (b :: rest) with
    | some (c, rest') => (utf8DecodeAux fuel rest').map (fun cs => c :: cs)
    | none => none

def utf8Decode (l : List Nat) : Option (List Char) := utf8DecodeAux l.length l

theorem utf8EncodeCharN_length_pos (n : Nat) : 0 < (utf8EncodeCharN n).length := by
  unfold utf8EncodeCharN
  split_ifs <;> simp

theorem utf8EncodeChar_lt_256 (c : Char) : ∀ b ∈ utf8EncodeChar c, b < 256 := by
  have hv : c.toNat < 55296 ∨ (57343 < c.toNat ∧ c.toNat < 1114112) := c.valid
  unfold utf8EncodeChar utf8EncodeCharN
  split_ifs with h1 h2 h3 <;> intro b hb <;> simp at hb <;> omega

theorem utf8Encode_lt_256 (cs : List Char) : ∀ b ∈ utf8Encode cs, b < 256 := by
  induction cs with
  | nil => intro b hb; cases hb
  | cons c rest ih =>
    intro b hb
    rw [show utf8Encode (c :: rest) = utf8EncodeChar c ++ utf8Encode rest from rfl] at hb
    rcases List.mem_append.mp hb with h | h
    · exact utf8EncodeChar_lt_256 c b h
    · exact ih b h

theorem utf8DecodeOne_encodeCharN (n : Nat) (rest : List Nat)
    (hv : n < 55296 ∨ (57343 < n ∧ n < 1114112)) :
    utf8DecodeOne (utf8EncodeCharN n ++ rest) = some (Char.ofNat n, rest) := by
  by_cases h1 : n < 128
  · rw [show utf8EncodeCharN n = [n] from by unfold utf8EncodeCharN; rw [if_pos h1]]
    simp only [List.cons_append, List.nil_append, utf8DecodeOne]
    rw [if_pos h1]
  · by_cases h2 : n < 2048
    · rw [show utf8EncodeCharN n = [192 + n / 64, 128 + n % 64] from by
        unfold utf8EncodeCharN; rw [if_neg h1, if_pos h2]]
      simp only [List.cons_append, List.nil_append, utf8DecodeOne]
      rw [if_neg (by omega), if_neg (by omega), if_pos (by omega),
        if_pos (show 128 ≤ 128 + n % 64 ∧ 128 + n % 64 < 192 by omega)]
      have hval : (192 + n / 64 - 192) * 64 + (128 + n % 64 - 128) = n := by omega
      rw [hval]
    · by_cases h3 : n < 65536
      · rw [show utf8EncodeCharN n = [224 + n / 4096, 128 + (n / 64) % 64, 128 + n % 64]
          from by unfold utf8EncodeCharN; rw [if_neg h1, if_neg h2, if_pos h3]]
        simp only [List.cons_append, List.nil_append, utf8DecodeOne]
        rw [if_neg (by omega), if_neg (by omega), if_neg (by omega), if_pos (by omega)]
        have hb1 : (if 224 + n / 4096 = 224 then
              160 ≤ 128 + (n / 64) % 64 ∧ 128 + (n / 64) % 64 < 192
            else if 224 + n / 4096 = 237 then
              128 ≤ 128 + (n / 64) % 64 ∧ 128 + (n / 64) % 64 < 160
            else 128 ≤ 128 + (n / 64) % 64 ∧ 128 + (n / 64) % 64 < 192) := by
          split_ifs with ha hb <;> omega
        rw [if_pos ⟨hb1, by omega, by omega⟩]
        have hval : (224 + n / 4096 - 224) * 4096 + (128 + (n / 64) % 64 - 128) * 64 +
            (128 + n % 64 - 128) = n := by omega
        rw [hval]
      · rw [show utf8EncodeCharN n =
            [240 + n / 262144, 128 + (n / 4096) % 64, 128 + (n / 64) % 64, 128 + n % 64]
          from by unfold utf8EncodeCharN; rw [if_neg h1, if_neg h2, if_neg h3]]
        simp only [List.cons_append, List.nil_append, utf8DecodeOne]
        rw [if_neg (by omega), if_neg (by omega), if_neg (by omega), if_neg (by omega),
          if_pos (by omega)]
        have hb1 : (if 240 + n / 262144 = 240 then
              144 ≤ 128 + (n / 4096) % 64 ∧ 128 + (n / 4096) % 64 < 192
            else if 240 + n / 262144 = 244 then
              128 ≤ 128 + (n / 4096) % 64 ∧ 128 + (n / 4096) % 64 < 144
            else 128 ≤ 128 + (n / 4096) % 64 ∧ 128 + (n / 4096) % 64 < 192) := by
          split_ifs with ha hb <;> omega
        rw [if_pos ⟨hb1, by omega, by omega, by omega, by omega⟩]
        have hval : (240 + n / 262144 - 240) * 262144 + (128 + (n / 4096) % 64 - 128) * 4096 +
            (128 + (n / 64) % 64 - 128) * 64 + (128 + n % 64 - 128) = n := by omega
        rw [hval]

theorem utf8DecodeOne_encodeChar (c : Char) (rest : List Nat) :
    utf8DecodeOne (utf8EncodeChar c ++ rest) = some (c, rest) := by
  have hv : c.toNat < 55296 ∨ (57343 < c.toNat ∧ c.toNat < 1114112) := c.valid
  rw [show utf8EncodeChar c = utf8EncodeCharN c.toNat from rfl,
    utf8DecodeOne_encodeCharN c.toNat rest hv, char_ofNat_toNat]

theorem utf8DecodeAux_encode (cs : List Char) :
    ∀ fuel, (utf8Encode cs).length ≤ fuel →
      utf8DecodeAux fuel (utf8Encode cs) = some cs := by
  induction cs with
  | nil =>
    intro fuel _
    cases fuel <;> rfl
  | cons c rest ih =>
    intro fuel hfuel
    have hlen : 0 < (utf8EncodeChar c).length := utf8EncodeCharN_length_pos c.toNat
    have hE : utf8Encode (c :: rest) = utf8EncodeChar c ++ utf8Encode rest := rfl
    rcases hcons : utf8Encode (c :: rest) with _ | ⟨b, bs⟩
    · exfalso
      rw [hE] at hcons
      rcases List.append_eq_nil.mp hcons with ⟨h1, _⟩
      rw [h1] at hlen
      exact Nat.lt_irrefl 0 hlen
    · rcases fuel with _ | f
      · exfalso
        rw [hcons] at hfuel
        simp at hfuel
      · have hone : utf8DecodeOne (b :: bs) = some (c, utf8Encode rest) := by
          rw [← hcons, hE]
          exact utf8DecodeOne_encodeChar c _
        have hrec : utf8DecodeAux f (utf8Encode rest) = some rest := by
          apply ih
          rw [hE, List.length_append] at hfuel
          omega
        rw [show utf8DecodeAux (f + 1) (b :: bs) =
            (match utf8DecodeOne (b :: bs) with
              | some (c', rest') => (utf8DecodeAux f rest').map (fun cs => c' :: cs)
              | none => none) from rfl]
        rw [hone]
        show Option.map (fun cs => c :: cs) (utf8DecodeAux f (utf8Encode rest)) =
          some (c :: rest)
        rw [hrec]
        rfl

theorem utf8Decode_encode (cs : List Char) : utf8Decode (utf8Encode cs) = some cs :=
  utf8DecodeAux_encode cs (utf8Encode cs).length (Nat.le_refl _)

/-- UTF-8 encoding is injective on character lists. -/
theorem utf8Encode_injective (a b : List Char) (h : utf8Encode a = utf8Encode b) :
    a = b := by
  have ha := utf8Decode_encode a
  have hb := utf8Decode_encode b
  rw [h, hb] at ha
  exact (Option.some.injEq _ _).mp ha.symm

/-! ## URL-safe base64 (`base64::engine::general_purpose::URL_SAFE`) -/

/-- Alphabet of the URL-safe engine: `A-Z a-z 0-9 - _`. -/
def b64Char (n : Nat) : Char :=
  if n < 26 then Char.ofNat (65 + n)
  else if n < 52 then Char.ofNat (97 + (n - 26))
  else if n < 62 then Char.ofNat (48 + (n - 52))
  else if n = 62 then '-'
  else '_'

def b64CharVal (c : Char) : Option Nat :=
  let n := c.toNat
  if 65 ≤ n ∧ n ≤ 90 then some (n - 65)
  else if 97 ≤ n ∧ n ≤ 122 then some (26 + (n - 97))
  else if 48 ≤ n ∧ n ≤ 57 then some (52 + (n - 48))
  else if n = 45 then some 62
  else if n = 95 then some 63
  else none

/-- `URL_SAFE.encode`: canonical base64 with `'='` padding. -/
def b64Encode : List Nat → List Char
  | [] => []
  | [b1] => [b64Char (b1 / 4), b64Char (b1 % 4 * 16), '=', '=']
  | [b1, b2] =>
    [b64Char (b1 / 4), b64Char (b1 % 4 * 16 + b2 / 16), b64Char (b2 % 16 * 4), '=']
  | b1 :: b2 :: b3 :: rest =>
    b64Char (b1 / 4) :: b64Char (b1 % 4 * 16 + b2 / 16) ::
      b64Char (b2 % 16 * 4 + b3 / 64) :: b64Char (b3 % 64) :: b64Encode rest

/-- `URL_SAFE.decode`: groups of four symbols, canonical padding only in the
final group, non-zero trailing bits rejected (the engine's default). -/
def b64Decode : List Char → Option (List Nat)
  | [] => some []
  | c1 :: c2 :: c3 :: c4 :: rest =>
    match b64CharVal c1, b64CharVal c2 with
    | some v1, some v2 =>
      if c3 = '=' ∧ c4 = '=' ∧ rest = [] then
        if v2 % 16 = 0 then some [v1 * 4 + v2 / 16] else none
      else if c4 = '=' ∧ rest = [] then
        match b64CharVal c3 with
        | some v3 =>
          if v3 % 4 = 0 then some [v1 * 4 + v2 / 16, v2 % 16 * 16 + v3 / 4] else none
        | none => none
      else
        match b64CharVal c3, b64CharVal c4 with
        | some v3, some v4 =>
          (b64Decode rest).map
            (fun tl => (v1 * 4 + v2 / 16) :: (v2 % 16 * 16 + v3 / 4) :: (v3 % 4 * 64 + v4) :: tl)
        | _, _ => none
    | _, _ => none
  | _ => none

/-- `trim_end_matches('=')`. -/
def dropTrailingEq (l : List Char) : List Char :=
  (l.reverse.dropWhile (fun c => c = '=')).reverse

/-- The re-padding loop of `decode_url`: append `'='` until the length is a
multiple of 4. -/
def padTo4 (l : List Char) : List Char :=
  l ++ List.replicate ((4 - l.length % 4) % 4) '='

theorem b64CharVal_b64Char (n : Nat) (h : n < 64) : b64CharVal (b64Char n) = some n := by
  interval_cases n <;> decide

theorem b64Char_ne_pad (n : Nat) (h : n < 64) : ¬ (b64Char n = '=') := by
  interval_cases n <;> decide

theorem b64Char_toNat_ne (n : Nat) (h : n < 64) :
    (b64Char n).toNat ≠ 58 ∧ (b64Char n).toNat ≠ 38 ∧ (b64Char n).toNat ≠ 61 := by
  interval_cases n <;> decide

theorem dropTrailingEq_append4 (a b c d : Char) (hd : ¬ (d = '=')) (X : List Char) :
    dropTrailingEq ([a, b, c, d] ++ X) = [a, b, c, d] ++ dropTrailingEq X := by
  unfold dropTrailingEq
  have h1 : ([a, b, c, d] ++ X).reverse = X.reverse ++ [d, c, b, a] := by simp
  rw [h1, List.dropWhile_append]
  by_cases hX : (X.reverse.dropWhile (fun x => x = '=')).isEmpty
  · rw [if_pos hX]
    have hXnil : X.reverse.dropWhile (fun x => x = '=') = [] := by
      rwa [List.isEmpty_iff] at hX
    rw [hXnil]
    simp [List.dropWhile, hd]
  · rw [if_neg hX]
    simp

theorem padTo4_append4 (a b c d : Char) (X : List Char) :
    padTo4 ([a, b, c, d] ++ X) = [a, b, c, d] ++ padTo4 X := by
  unfold padTo4
  have hk : (4 - ([a, b, c, d] ++ X).length % 4) % 4 = (4 - X.length % 4) % 4 := by
    simp [List.length_append]
    omega
  rw [hk, List.append_assoc]

theorem b64_roundtrip : ∀ (bs : List Nat), (∀ x ∈ bs, x < 256) →
    b64Decode (padTo4 (dropTrailingEq (b64Encode bs))) = some bs
  | [], _ => by rfl
  | [b1], h => by
    have h1 : b1 < 256 := h b1 (by simp)
    show b64Decode (padTo4 (dropTrailingEq
      [b64Char (b1 / 4), b64Char (b1 % 4 * 16), '=', '='])) = some [b1]
    have hc2 : ¬ (b64Char (b1 % 4 * 16) = '=') := b64Char_ne_pad _ (by omega)
    have hstrip : dropTrailingEq [b64Char (b1 / 4), b64Char (b1 % 4 * 16), '=', '='] =
        [b64Char (b1 / 4), b64Char (b1 % 4 * 16)] := by
      unfold dropTrailingEq
      simp [List.dropWhile, hc2]
    rw [hstrip]
    have hpad : padTo4 [b64Char (b1 / 4), b64Char (b1 % 4 * 16)] =
        [b64Char (b1 / 4), b64Char (b1 % 4 * 16), '=', '='] := by
      unfold padTo4
      norm_num [List.replicate]
    rw [hpad]
    have hv1 : b64CharVal (b64Char (b1 / 4)) = some (b1 / 4) :=
      b64CharVal_b64Char _ (by omega)
    have hv2 : b64CharVal (b64Char (b1 % 4 * 16)) = some (b1 % 4 * 16) :=
      b64CharVal_b64Char _ (by omega)
    simp only [b64Decode, hv1, hv2]
    rw [if_pos (by simp), if_pos (by omega : b1 % 4 * 16 % 16 = 0)]
    have hval : b1 / 4 * 4 + b1 % 4 * 16 / 16 = b1 := by omega
    rw [hval]
  | [b1, b2], h => by
    have h1 : b1 < 256 := h b1 (by simp)
    have h2 : b2 < 256 := h b2 (by simp)
    show b64Decode (padTo4 (dropTrailingEq
      [b64Char (b1 / 4), b64Char (b1 % 4 * 16 + b2 / 16), b64Char (b2 % 16 * 4), '='])) =
      some [b1, b2]
    have hc3 : ¬ (b64Char (b2 % 16 * 4) = '=') := b64Char_ne_pad _ (by omega)
    have hstrip : dropTrailingEq
        [b64Char (b1 / 4), b64Char (b1 % 4 * 16 + b2 / 16), b64Char (b2 % 16 * 4), '='] =
        [b64Char (b1 / 4), b64Char (b1 % 4 * 16 + b2 / 16), b64Char (b2 % 16 * 4)] := by
      unfold dropTrailingEq
      simp [List.dropWhile, hc3]
    rw [hstrip]
    have hpad : padTo4
        [b64Char (b1 / 4), b64Char (b1 % 4 * 16 + b2 / 16), b64Char (b2 % 16 * 4)] =
        [b64Char (b1 / 4), b64Char (b1 % 4 * 16 + b2 / 16), b64Char (b2 % 16 * 4), '='] := by
      unfold padTo4
      norm_num [List.replicate]
    rw [hpad]
    have hv1 : b64CharVal (b64Char (b1 / 4)) = some (b1 / 4) :=
      b64CharVal_b64Char _ (by omega)
    have hv2 : b64CharVal (b64Char (b1 % 4 * 16 + b2 / 16)) =
        some (b1 % 4 * 16 + b2 / 16) := b64CharVal_b64Char _ (by omega)
    have hv3 : b64CharVal (b64Char (b2 % 16 * 4)) = some (b2 % 16 * 4) :=
      b64CharVal_b64Char _ (by omega)
    simp only [b64Decode, hv1, hv2, hv3]
    rw [if_neg (fun hcon => hc3 hcon.1), if_pos (by simp)]
    rw [if_pos (by omega : b2 % 16 * 4 % 4 = 0)]
    have e1 : b1 / 4 * 4 + (b1 % 4 * 16 + b2 / 16) / 16 = b1 := by omega
    have e2 : (b1 % 4 * 16 + b2 / 16) % 16 * 16 + b2 % 16 * 4 / 4 = b2 := by omega
    rw [e1, e2]
  | [b1, b2, b3], h => by
    have h1 : b1 < 256 := h b1 (by simp)
    have h2 : b2 < 256 := h b2 (by simp)
    have h3 : b3 < 256 := h b3 (by simp)
    show b64Decode (padTo4 (dropTrailingEq
      [b64Char (b1 / 4), b64Char (b1 % 4 * 16 + b2 / 16),
       b64Char (b2 % 16 * 4 + b3 / 64), b64Char (b3 % 64)])) = some [b1, b2, b3]
    have hc4 : ¬ (b64Char (b3 % 64) = '=') := b64Char_ne_pad _ (by omega)
    have hstrip : dropTrailingEq
        [b64Char (b1 / 4), b64Char (b1 % 4 * 16 + b2 / 16),
         b64Char (b2 % 16 * 4 + b3 / 64), b64Char (b3 % 64)] =
        [b64Char (b1 / 4), b64Char (b1 % 4 * 16 + b2 / 16),
         b64Char (b2 % 16 * 4 + b3 / 64), b64Char (b3 % 64)] := by
      unfold dropTrailingEq
      simp [List.dropWhile, hc4]
    have hpad : padTo4
        [b64Char (b1 / 4), b64Char (b1 % 4 * 16 + b2 / 16),
         b64Char (b2 % 16 * 4 + b3 / 64), b64Char (b3 % 64)] =
        [b64Char (b1 / 4), b64Char (b1 % 4 * 16 + b2 / 16),
         b64Char (b2 % 16 * 4 + b3 / 64), b64Char (b3 % 64)] := by
      unfold padTo4
      norm_num [List.replicate]
    rw [hstrip, hpad]
    have hv1 : b64CharVal (b64Char (b1 / 4)) = some (b1 / 4) :=
      b64CharVal_b64Char _ (by omega)
    have hv2 : b64CharVal (b64Char (b1 % 4 * 16 + b2 / 16)) =
        some (b1 % 4 * 16 + b2 / 16) := b64CharVal_b64Char _ (by omega)
    have hv3 : b64CharVal (b64Char (b2 % 16 * 4 + b3 / 64)) =
        some (b2 % 16 * 4 + b3 / 64) := b64CharVal_b64Char _ (by omega)
    have hv4 : b64CharVal (b64Char (b3 % 64)) = some (b3 % 64) :=
      b64CharVal_b64Char _ (by omega)
    simp only [b64Decode, hv1, hv2, hv3, hv4]
    rw [if_neg (fun hcon => (b64Char_ne_pad (b2 % 16 * 4 + b3 / 64) (by omega)) hcon.1),
      if_neg (fun hcon => (b64Char_ne_pad (b3 % 64) (by omega)) hcon.1)]
    have e1 : b1 / 4 * 4 + (b1 % 4 * 16 + b2 / 16) / 16 = b1 := by omega
    have e2 : (b1 % 4 * 16 + b2 / 16) % 16 * 16 + (b2 % 16 * 4 + b3 / 64) / 4 = b2 := by
      omega
    have e3 : (b2 % 16 * 4 + b3 / 64) % 4 * 64 + b3 % 64 = b3 := by omega
    simp only [b64Decode, Option.map]
    rw [e1, e2, e3]
  | b1 :: b2 :: b3 :: r4 :: rest, h => by
    have h1 : b1 < 256 := h b1 (by simp)
    have h2 : b2 < 256 := h b2 (by simp)
    have h3 : b3 < 256 := h b3 (by simp)
    have ih := b64_roundtrip (r4 :: rest) (fun x hx => h x (by simp at hx ⊢; tauto))
    show b64Decode (padTo4 (dropTrailingEq
      ([b64Char (b1 / 4), b64Char (b1 % 4 * 16 + b2 / 16),
        b64Char (b2 % 16 * 4 + b3 / 64), b64Char (b3 % 64)] ++ b64Encode (r4 :: rest)))) =
      some (b1 :: b2 :: b3 :: r4 :: rest)
    rw [dropTrailingEq_append4 _ _ _ _ (b64Char_ne_pad _ (by omega)) _, padTo4_append4]
    have hv1 : b64CharVal (b64Char (b1 / 4)) = some (b1 / 4) :=
      b64CharVal_b64Char _ (by omega)
    have hv2 : b64CharVal (b64Char (b1 % 4 * 16 + b2 / 16)) =
        some (b1 % 4 * 16 + b2 / 16) := b64CharVal_b64Char _ (by omega)
    have hv3 : b64CharVal (b64Char (b2 % 16 * 4 + b3 / 64)) =
        some (b2 % 16 * 4 + b3 / 64) := b64CharVal_b64Char _ (by omega)
    have hv4 : b64CharVal (b64Char (b3 % 64)) = some (b3 % 64) :=
      b64CharVal_b64Char _ (by omega)
    simp only [b64Decode, hv1, hv2, hv3, hv4]
    rw [if_neg (fun hcon => (b64Char_ne_pad (b2 % 16 * 4 + b3 / 64) (by omega)) hcon.1),
      if_neg (fun hcon => (b64Char_ne_pad (b3 % 64) (by omega)) hcon.1)]
    simp only [List.append_eq, List.nil_append]
    rw [ih]
    have e1 : b1 / 4 * 4 + (b1 % 4 * 16 + b2 / 16) / 16 = b1 := by omega
    have e2 : (b1 % 4 * 16 + b2 / 16) % 16 * 16 + (b2 % 16 * 4 + b3 / 64) / 4 = b2 := by
      omega
    have e3 : (b2 % 16 * 4 + b3 / 64) % 4 * 64 + b3 % 64 = b3 := by omega
    simp only [Option.map]
    rw [e1, e2, e3]

/-- Every character emitted by `b64Encode` is either padding or an alphabet
character. -/
theorem b64Encode_chars : ∀ (bs : List Nat), (∀ x ∈ bs, x < 256) →
    ∀ ch ∈ b64Encode bs, ch = '=' ∨ ∃ n, n < 64 ∧ ch = b64Char n
  | [], _ => by intro ch hch; cases hch
  | [b1], h => by
    have h1 : b1 < 256 := h b1 (by simp)
    intro ch hch
    simp only [b64Encode, List.mem_cons] at hch
    rcases hch with rfl | rfl | rfl | rfl | hch
    · exact Or.inr ⟨b1 / 4, by omega, rfl⟩
    · exact Or.inr ⟨b1 % 4 * 16, by omega, rfl⟩
    · exact Or.inl rfl
    · exact Or.inl rfl
    · cases hch
  | [b1, b2], h => by
    have h1 : b1 < 256 := h b1 (by simp)
    have h2 : b2 < 256 := h b2 (by simp)
    intro ch hch
    simp only [b64Encode, List.mem_cons] at hch
    rcases hch with rfl | rfl | rfl | rfl | hch
    · exact Or.inr ⟨b1 / 4, by omega, rfl⟩
    · exact Or.inr ⟨b1 % 4 * 16 + b2 / 16, by omega, rfl⟩
    · exact Or.inr ⟨b2 % 16 * 4, by omega, rfl⟩
    · exact Or.inl rfl
    · cases hch
  | [b1, b2, b3], h => by
    have h1 : b1 < 256 := h b1 (by simp)
    have h2 : b2 < 256 := h b2 (by simp)
    have h3 : b3 < 256 := h b3 (by simp)
    intro ch hch
    simp only [b64Encode, List.mem_cons] at hch
    rcases hch with rfl | rfl | rfl | rfl | hch
    · exact Or.inr ⟨b1 / 4, by omega, rfl⟩
    · exact Or.inr ⟨b1 % 4 * 16 + b2 / 16, by omega, rfl⟩
    · exact Or.inr ⟨b2 % 16 * 4 + b3 / 64, by omega, rfl⟩
    · exact Or.inr ⟨b3 % 64, by omega, rfl⟩
    · cases hch
  | b1 :: b2 :: b3 :: r4 :: rest, h => by
    have h1 : b1 < 256 := h b1 (by simp)
    have h2 : b2 < 256 := h b2 (by simp)
    have h3 : b3 < 256 := h b3 (by simp)
    have ih := b64Encode_chars (r4 :: rest) (fun x hx => h x (by simp at hx ⊢; tauto))
    intro ch hch
    simp only [b64Encode, List.mem_cons] at hch
    rcases hch with rfl | rfl | rfl | rfl | hch
    · exact Or.inr ⟨b1 / 4, by omega, rfl⟩
    · exact Or.inr ⟨b1 % 4 * 16 + b2 / 16, by omega, rfl⟩
    · exact Or.inr ⟨b2 % 16 * 4 + b3 / 64, by omega, rfl⟩
    · exact Or.inr ⟨b3 % 64, by omega, rfl⟩
    · exact ih ch hch

/-! ## URL decoding (`proxy_controller.rs`, `decode_url`) -/

/-- The error type of the server (`server/error.rs`), as far as the core
uses it. -/
inductive AppError where
  | BadRequest (msg : String)
  | Unauthorized
  | NotFound (msg : String)
  | InternalServerError
  | InternalServerErrorWithContext (msg : String)
deriving Repr, DecidableEq

/-- Hex digit value of a byte (both cases), for percent-decoding. -/
def hexValByte (b : Nat) : Option Nat :=
  if 48 ≤ b ∧ b ≤ 57 then some (b - 48)
  else if 97 ≤ b ∧ b ≤ 102 then some (b - 97 + 10)
  else if 65 ≤ b ∧ b ≤ 70 then some (b - 65 + 10)
  else none

/-- `urlencoding::decode` byte phase: a `%` followed by two hex digits becomes
one byte; malformed escapes are kept literally.  Fuelled for kernel
evaluation. -/
def percentDecodeAux : Nat → List Nat → List Nat
  | 0, l => l
  | _, [] => []
  | fuel + 1, 37 :: rest =>
    match rest with
    | h1 :: h2 :: rest2 =>
      match hexValByte h1, hexValByte h2 with
      | some a, some b => (a * 16 + b) :: percentDecodeAux fuel rest2
      | _, _ => 37 :: percentDecodeAux fuel rest
    | _ => 37 :: percentDecodeAux fuel rest
  | fuel + 1, b :: rest => b :: percentDecodeAux fuel rest

/-- `decode_url`: a parameter that already starts with `http://` / `https://`
is percent-decoded; anything else is right-padded with `'='` to a multiple of
four and URL-safe-base64 decoded; either way the result must be valid UTF-8.
All failures map to `BadRequest "Invalid URL encoding"`. -/
def decode_url (urlParam : List Char) : Except AppError (List Char) :=
  if "http://".data.isPrefixOf urlParam ∨ "https://".data.isPrefixOf urlParam then
    let bytes := utf8Encode urlParam
    match utf8Decode (percentDecodeAux bytes.length bytes) with
    | some s => .ok s
    | none => .error (.BadRequest "Invalid URL encoding")
  else
    match b64Decode (padTo4 urlParam) with
    | none => .error (.BadRequest "Invalid URL encoding")
    | some bytes =>
      match utf8Decode bytes with
      | some s => .ok s
      | none => .error (.BadRequest "Invalid URL encoding")

/-! ## Playlist rewriting (`proxy_controller.rs`, `process_m3u8`) -/

/-- Rust `char::is_whitespace` (the Unicode `White_Space` property). -/
def isRustWhitespace (c : Char) : Bool :=
  decide ((9 ≤ c.toNat ∧ c.toNat ≤ 13) ∨ c.toNat = 32 ∨ c.toNat = 133 ∨
    c.toNat = 160 ∨ c.toNat = 5760 ∨ (8192 ≤ c.toNat ∧ c.toNat ≤ 8202) ∨
    c.toNat = 8232 ∨ c.toNat = 8233 ∨ c.toNat = 8239 ∨ c.toNat = 8287 ∨
    c.toNat = 12288)

/-- Rust `str::trim`. -/
def trimChars (l : List Char) : List Char :=
  ((l.dropWhile isRustWhitespace).reverse.dropWhile isRustWhitespace).reverse

/-- Strip one trailing `'\r'` (the `\r\n` handling of `str::lines`). -/
def stripCR (l : List Char) : List Char :=
  if l.getLast? = some '\r' then l.dropLast else l

/-- Rust `str::lines`: split at `'\n'`, strip a preceding `'\r'` from each
terminated line, and do not emit a final empty line for a trailing
terminator. -/
def rustLines (s : List Char) : List (List Char) :=
  if s.isEmpty then []
  else
    let parts := splitOnSep '\n' s
    let init := parts.dropLast.map stripCR
    match parts.getLast? with
    | some [] => init
    | some lst => init ++ [lst]
    | none => init

/-- Rust `i64` `Display`. -/
def intToDec (i : Int) : List Char :=
  if i < 0 then '-' :: natToDec (-i).toNat else natToDec i.toNat

/-- `Vec::join("\n")`. -/
def joinNL : List (List Char) → List Char
  | [] => []
  | [l] => l
  | l :: rest => l ++ '\n' :: joinNL rest

/-- The per-line closure of `process_m3u8`.  `resolve` stands for the external
`url` crate's `Url::parse(&base_path).and_then(|base| base.join(trimmed))`
resolution against the playlist's base directory (an oracle of the model, as
it is library code); `sign` stands for
`signature_util.generate_signature(client_id, expiry, &encoded)` applied to
the encoded URL; `clientEnc` is `urlencoding::encode(client_id)`. -/
def rewriteLine (resolve : List Char → Option (List Char))
    (sign : List Char → List Char) (expiry : Int) (clientEnc : List Char)
    (line : List Char) : List Char :=
  let trimmed := trimChars line
  if trimmed.isEmpty ∨ trimmed.head? = some '#' then line
  else
    let full_url? :=
      if "http://".data.isPrefixOf trimmed ∨ "https://".data.isPrefixOf trimmed then
        some trimmed
      else resolve trimmed
    match full_url? with
    | none => line
    | some full_url =>
      let encoded := dropTrailingEq (b64Encode (utf8Encode full_url))
      "/api/v1/proxy?url=".data ++ encoded ++ "&schema=sports&sig=".data ++
        sign encoded ++ "&exp=".data ++ intToDec expiry ++ "&client=".data ++ clientEnc

/-- `process_m3u8`: drop lines whose trimmed form starts with `##`, rewrite
the rest line by line, join with `'\n'`. -/
def process_m3u8 (resolve : List Char → Option (List Char))
    (sign : List Char → List Char) (expiry : Int) (clientEnc : List Char)
    (text : List Char) : List Char :=
  joinNL (((rustLines text).filter
    (fun l => !("##".data.isPrefixOf (trimChars l)))).map
      (rewriteLine resolve sign expiry clientEnc))

/-- First index at which `pat` occurs as a contiguous sublist (`str::find`). -/
def findSublistIdx (pat : List Char) : List Char → Option Nat
  | [] => if pat.isEmpty then some 0 else none
  | c :: rest =>
    if pat.isPrefixOf (c :: rest) then some 0
    else (findSublistIdx pat rest).map (fun i => i + 1)

/-- Extract the raw value of the `url` query parameter out of a rewritten
line: the text between `url=` and the following `'&'`. -/
def extractUrlParam (line : List Char) : Option (List Char) :=
  match findSublistIdx "url=".data line with
  | some i => some ((line.drop (i + 4)).takeWhile (fun c => c != '&'))
  | none => none

/-- The resolved absolute URL of a playlist line, if the line is a URI line:
already-absolute lines are kept, others are resolved by the `resolve`
oracle. -/
def resolvedUrlOf (resolve : List Char → Option (List Char)) (line : List Char) :
    Option (List Char) :=
  let trimmed := trimChars line
  if trimmed.isEmpty ∨ trimmed.head? = some '#' then none
  else if "http://".data.isPrefixOf trimmed ∨ "https://".data.isPrefixOf trimmed then
    some trimmed
  else resolve trimmed

/-- `b64Encode` output splits into alphabet characters followed by padding. -/
theorem b64Encode_split : ∀ (bs : List Nat), (∀ x ∈ bs, x < 256) →
    ∃ A k, b64Encode bs = A ++ List.replicate k '=' ∧
      ∀ ch ∈ A, ∃ n, n < 64 ∧ ch = b64Char n
  | [], _ => ⟨[], 0, rfl, by intro ch hch; cases hch⟩
  | [b1], h => by
    have h1 : b1 < 256 := h b1 (by simp)
    refine ⟨[b64Char (b1 / 4), b64Char (b1 % 4 * 16)], 2, rfl, ?_⟩
    intro ch hch
    simp only [List.mem_cons] at hch
    rcases hch with rfl | rfl | hch
    · exact ⟨b1 / 4, by omega, rfl⟩
    · exact ⟨b1 % 4 * 16, by omega, rfl⟩
    · cases hch
  | [b1, b2], h => by
    have h1 : b1 < 256 := h b1 (by simp)
    have h2 : b2 < 256 := h b2 (by simp)
    refine ⟨[b64Char (b1 / 4), b64Char (b1 % 4 * 16 + b2 / 16), b64Char (b2 % 16 * 4)],
      1, rfl, ?_⟩
    intro ch hch
    simp only [List.mem_cons] at hch
    rcases hch with rfl | rfl | rfl | hch
    · exact ⟨b1 / 4, by omega, rfl⟩
    · exact ⟨b1 % 4 * 16 + b2 / 16, by omega, rfl⟩
    · exact ⟨b2 % 16 * 4, by omega, rfl⟩
    · cases hch
  | b1 :: b2 :: b3 :: rest, h => by
    have h1 : b1 < 256 := h b1 (by simp)
    have h2 : b2 < 256 := h b2 (by simp)
    have h3 : b3 < 256 := h b3 (by simp)
    obtain ⟨A, k, hEq, hA⟩ :=
      b64Encode_split rest (fun x hx => h x (by simp [hx]))
    refine ⟨b64Char (b1 / 4) :: b64Char (b1 % 4 * 16 + b2 / 16) ::
      b64Char (b2 % 16 * 4 + b3 / 64) :: b64Char (b3 % 64) :: A, k, ?_, ?_⟩
    · show b64Char (b1 / 4) :: b64Char (b1 % 4 * 16 + b2 / 16) ::
        b64Char (b2 % 16 * 4 + b3 / 64) :: b64Char (b3 % 64) :: b64Encode rest = _
      rw [hEq]
      simp
    · intro ch hch
      simp only [List.mem_cons] at hch
      rcases hch with rfl | rfl | rfl | rfl | hch
      · exact ⟨b1 / 4, by omega, rfl⟩
      · exact ⟨b1 % 4 * 16 + b2 / 16, by omega, rfl⟩
      · exact ⟨b2 % 16 * 4 + b3 / 64, by omega, rfl⟩
      · exact ⟨b3 % 64, by omega, rfl⟩
      · exact hA ch hch

theorem dropWhile_replicate_append {α : Type} (p : α → Bool) (c : α)
    (hpc : p c = true) : ∀ (k : Nat) (X : List α),
      (List.replicate k c ++ X).dropWhile p = X.dropWhile p
  | 0, X => rfl
  | k + 1, X => by
    simp only [List.replicate, List.cons_append, List.dropWhile, hpc]
    exact dropWhile_replicate_append p c hpc k X

theorem dropTrailingEq_alpha (A : List Char) (k : Nat)
    (hA : ∀ ch ∈ A, ¬ (ch = '=')) :
    dropTrailingEq (A ++ List.replicate k '=') = A := by
  unfold dropTrailingEq
  rw [List.reverse_append, List.reverse_replicate,
    dropWhile_replicate_append _ _ (by simp) k A.reverse]
  cases hrev : A.reverse with
  | nil =>
    have : A = [] := by
      have := congrArg List.reverse hrev
      rwa [List.reverse_reverse] at this
    simp [this]
  | cons hd t =>
    have hh : ¬ (hd = '=') := hA hd (by rw [← List.mem_reverse, hrev]; simp)
    have hdw : List.dropWhile (fun c => decide (c = '=')) (hd :: t) = hd :: t := by
      simp [List.dropWhile, hh]
    exact Eq.trans (congrArg List.reverse hdw) (by rw [← hrev, List.reverse_reverse])

/-- After stripping the padding, every character of the encoded URL token is an
alphabet character. -/
theorem encoded_alphabet (bs : List Nat) (hb : ∀ x ∈ bs, x < 256) :
    ∀ ch ∈ dropTrailingEq (b64Encode bs), ∃ n, n < 64 ∧ ch = b64Char n := by
  obtain ⟨A, k, hEq, hA⟩ := b64Encode_split bs hb
  rw [hEq, dropTrailingEq_alpha A k (fun ch hch => by
    obtain ⟨n, hn, rfl⟩ := hA ch hch
    exact b64Char_ne_pad n hn)]
  exact hA

/-- A list without `':'` cannot start with `http://` or `https://`. -/
theorem no_http_prefix (l : List Char) (h : ∀ ch ∈ l, ch.toNat ≠ 58) :
    ¬ ("http://".data.isPrefixOf l = true) ∧ ¬ ("https://".data.isPrefixOf l = true) := by
  constructor <;> intro hp
  · obtain ⟨t, rfl⟩ := List.isPrefixOf_iff_prefix.mp hp
    exact h ':' (List.mem_append.mpr (Or.inl (by decide))) (by decide)
  · obtain ⟨t, rfl⟩ := List.isPrefixOf_iff_prefix.mp hp
    exact h ':' (List.mem_append.mpr (Or.inl (by decide))) (by decide)

theorem takeWhile_all_append {α : Type} (p : α → Bool) :
    ∀ (A : List α) (c : α) (Y : List α), (∀ a ∈ A, p a = true) → p c = false →
      (A ++ c :: Y).takeWhile p = A
  | [], c, Y, _, hc => by simp [List.takeWhile, hc]
  | a :: A, c, Y, hA, hc => by
    simp only [List.cons_append, List.takeWhile, hA a (by simp)]
    exact congrArg (fun z => a :: z)
      (takeWhile_all_append p A c Y (fun x hx => hA x (by simp [hx])) hc)

/-- Extracting the `url` parameter from an emitted replacement line returns
exactly the encoded token, as long as the token contains no `'&'`. -/
theorem extract_emitted (encoded tail1 : List Char)
    (hch : ∀ ch ∈ encoded, ch.toNat ≠ 38) :
    extractUrlParam ("/api/v1/proxy?url=".data ++ (encoded ++ '&' :: tail1)) =
      some encoded := by
  unfold extractUrlParam
  have hfind : findSublistIdx "url=".data
      ("/api/v1/proxy?url=".data ++ (encoded ++ '&' :: tail1)) = some 14 := by
    simp [findSublistIdx]
  rw [hfind]
  show some ((("/api/v1/proxy?url=".data ++
      (encoded ++ '&' :: tail1)).drop (14 + 4)).takeWhile (fun c => c != '&')) =
    some encoded
  have hdrop : ("/api/v1/proxy?url=".data ++ (encoded ++ '&' :: tail1)).drop (14 + 4) =
      encoded ++ '&' :: tail1 := by
    simp [List.drop]
  rw [hdrop]
  congr 1
  exact takeWhile_all_append _ encoded '&' tail1
    (fun a ha => by
      rw [bne_iff_ne]
      intro hcon
      exact hch a ha (by rw [hcon]; rfl))
    (by decide)

/-- `decode_url` inverts the playlist rewriter's encoding step: padding the
stripped URL-safe base64 token back to a multiple of four and decoding
reproduces the resolved URL exactly.  (The token can never hit the
percent-decoding branch: the base64 alphabet contains no `':'`.) -/
theorem decode_url_encoded (full_url : List Char) :
    decode_url (dropTrailingEq (b64Encode (utf8Encode full_url))) = .ok full_url := by
  have hb : ∀ x ∈ utf8Encode full_url, x < 256 := utf8Encode_lt_256 full_url
  have halpha := encoded_alphabet _ hb
  have hcolon : ∀ ch ∈ dropTrailingEq (b64Encode (utf8Encode full_url)),
      ch.toNat ≠ 58 := by
    intro ch hch
    obtain ⟨n, hn, rfl⟩ := halpha ch hch
    exact (b64Char_toNat_ne n hn).1
  obtain ⟨hh1, hh2⟩ := no_http_prefix _ hcolon
  unfold decode_url
  rw [if_neg (fun hor => hor.elim hh1 hh2)]
  rw [b64_roundtrip _ hb]
  show (match utf8Decode (utf8Encode full_url) with
    | some s => Except.ok s
    | none => Except.error (AppError.BadRequest "Invalid URL encoding")) =
    Except.ok full_url
  rw [utf8Decode_encode]

/-- C7: `process_m3u8` drops every line whose trimmed form starts with `##`,
passes empty and comment lines through unchanged, and for every rewritten URI
line the `url` query parameter of the emitted `/api/v1/proxy?...` replacement
line decodes (re-pad with `'='`, URL-safe base64 decode, UTF-8 decode) back to
exactly the resolved absolute upstream URL. -/
theorem C7_playlist_rewrite_roundtrip (resolve : List Char → Option (List Char))
    (sign : List Char → List Char) (expiry : Int) (clientEnc : List Char)
    (text line full_url : List Char) :
    process_m3u8 resolve sign expiry clientEnc text =
      joinNL (((rustLines text).filter
        (fun l => !("##".data.isPrefixOf (trimChars l)))).map
          (rewriteLine resolve sign expiry clientEnc)) ∧
    ("##".data.isPrefixOf (trimChars line) = true →
      line ∉ (rustLines text).filter
        (fun l => !("##".data.isPrefixOf (trimChars l)))) ∧
    ((trimChars line).isEmpty = true ∨ (trimChars line).head? = some '#' →
      rewriteLine resolve sign expiry clientEnc line = line) ∧
    (resolvedUrlOf resolve line = some full_url →
      extractUrlParam (rewriteLine resolve sign expiry clientEnc line) =
        some (dropTrailingEq (b64Encode (utf8Encode full_url))) ∧
      decode_url (dropTrailingEq (b64Encode (utf8Encode full_url))) = .ok full_url) := by
  refine ⟨rfl, ?_, ?_, ?_⟩
  · intro hpre hmem
    have := (List.mem_filter.mp hmem).2
    rw [hpre] at this
    cases this
  · intro hcomment
    unfold rewriteLine
    rw [if_pos hcomment]
  · intro hres
    unfold resolvedUrlOf at hres
    by_cases hcomment : (trimChars line).isEmpty = true ∨
        (trimChars line).head? = some '#'
    · rw [if_pos hcomment] at hres
      cases hres
    · rw [if_neg hcomment] at hres
      refine ⟨?_, decode_url_encoded full_url⟩
      unfold rewriteLine
      rw [if_neg hcomment]
      have hfull : (if "http://".data.isPrefixOf (trimChars line) ∨
          "https://".data.isPrefixOf (trimChars line) then some (trimChars line)
          else resolve (trimChars line)) = some full_url := hres
      rw [hfull]
      show extractUrlParam ("/api/v1/proxy?url=".data ++
          dropTrailingEq (b64Encode (utf8Encode full_url)) ++
          "&schema=sports&sig=".data ++
          sign (dropTrailingEq (b64Encode (utf8Encode full_url))) ++
          "&exp=".data ++ intToDec expiry ++ "&client=".data ++ clientEnc) =
        some (dropTrailingEq (b64Encode (utf8Encode full_url)))
      have hamp : ∀ ch ∈ dropTrailingEq (b64Encode (utf8Encode full_url)),
          ch.toNat ≠ 38 := by
        intro ch hch
        obtain ⟨n, hn, rfl⟩ :=
          encoded_alphabet _ (utf8Encode_lt_256 full_url) ch hch
        exact (b64Char_toNat_ne n hn).2.1
      have hshape : "/api/v1/proxy?url=".data ++
          dropTrailingEq (b64Encode (utf8Encode full_url)) ++
          "&schema=sports&sig=".data ++
          sign (dropTrailingEq (b64Encode (utf8Encode full_url))) ++
          "&exp=".data ++ intToDec expiry ++ "&client=".data ++ clientEnc =
          "/api/v1/proxy?url=".data ++
            (dropTrailingEq (b64Encode (utf8Encode full_url)) ++ '&' ::
              ("schema=sports&sig=".data ++
                sign (dropTrailingEq (b64Encode (utf8Encode full_url))) ++
                "&exp=".data ++ intToDec expiry ++ "&client=".data ++ clientEnc)) := by
        simp only [List.append_assoc]
        rfl
      rw [hshape]
      exact extract_emitted _ _ hamp

/-- Concrete resolution oracle for the C7 witness: resolves relative URIs
against `https://host.example/path/`. -/
def witnessResolve : List Char → Option (List Char) :=
  fun _ => some "https://host.example/path/seg1.ts".data

def witnessSign : List Char → List Char := fun _ => "deadbeef".data

/-- Witness for C7 on the spec's concrete playlist: the `#EXTINF` line passes
through unchanged, the `## junk` line is dropped, and the rewritten `seg1.ts`
line's `url` parameter decodes back to the resolved URL. -/
theorem C7_playlist_rewrite_roundtrip_witness :
    rewriteLine witnessResolve witnessSign 12345 "abc".data "#EXTINF:4,".data =
      "#EXTINF:4,".data ∧
    ("## junk".data ∉ (rustLines "#EXTM3U\n## junk\nseg1.ts".data).filter
      (fun l => !("##".data.isPrefixOf (trimChars l)))) ∧
    (extractUrlParam (rewriteLine witnessResolve witnessSign 12345 "abc".data
        "seg1.ts".data) =
      some (dropTrailingEq (b64Encode
        (utf8Encode "https://host.example/path/seg1.ts".data))) ∧
     decode_url (dropTrailingEq (b64Encode
        (utf8Encode "https://host.example/path/seg1.ts".data))) =
      .ok "https://host.example/path/seg1.ts".data) :=
  ⟨(C7_playlist_rewrite_roundtrip witnessResolve witnessSign 12345 "abc".data
      "#EXTM3U\n## junk\nseg1.ts".data "#EXTINF:4,".data []).2.2.1 (by decide),
   (C7_playlist_rewrite_roundtrip witnessResolve witnessSign 12345 "abc".data
      "#EXTM3U\n## junk\nseg1.ts".data "## junk".data []).2.1 (by decide),
   (C7_playlist_rewrite_roundtrip witnessResolve witnessSign 12345 "abc".data
      "#EXTM3U\n## junk\nseg1.ts".data "seg1.ts".data
      "https://host.example/path/seg1.ts".data).2.2.2 (by decide)⟩

/-! ## SHA-256 and HMAC (the `sha2` / `hmac` crates used by
`signature_utils.rs`), implemented from FIPS 180-4 / RFC 2104. -/

def add32 (a b : Nat) : Nat := (a + b) % 4294967296

def rotr32 (n x : Nat) : Nat := (x >>> n) ||| ((x <<< (32 - n)) % 4294967296)

def shaK : List Nat :=
  [1116352408, 1899447441, 3049323471, 3921009573, 961987163,
   1508970993, 2453635748, 2870763221, 3624381080, 310598401,
   607225278, 1426881987, 1925078388, 2162078206, 2614888103,
   3248222580, 3835390401, 4022224774, 264347078, 604807628,
   770255983, 1249150122, 1555081692, 1996064986, 2554220882,
   2821834349, 2952996808, 3210313671, 3336571891, 3584528711,
   113926993, 338241895, 666307205, 773529912, 1294757372,
   1396182291, 1695183700, 1986661051, 2177026350, 2456956037,
   2730485921, 2820302411, 3259730800, 3345764771, 3516065817,
   3600352804, 4094571909, 275423344, 430227734, 506948616,
   659060556, 883997877, 958139571, 1322822218, 1537002063,
   1747873779, 1955562222, 2024104815, 2227730452, 2361852424,
   2428436474, 2756734187, 3204031479, 3329325298]

def shaH0 : List Nat :=
  [1779033703, 3144134277, 1013904242, 2773480762, 1359893119,
   2600822924, 528734635, 1541459225]

/-- Big-endian 32-bit words from bytes, four at a time. -/
def beWords : List Nat → List Nat
  | b0 :: b1 :: b2 :: b3 :: rest =>
    (b0 * 16777216 + b1 * 65536 + b2 * 256 + b3) :: beWords rest
  | _ => []

/-- Message-schedule extension: grow the 16 block words to 64. -/
def shaExtendAux : Nat → List Nat → List Nat
  | 0, acc => acc
  | k + 1, acc =>
    let i := acc.length
    let w15 := acc.getD (i - 15) 0
    let w2 := acc.getD (i - 2) 0
    let w16 := acc.getD (i - 16) 0
    let w7 := acc.getD (i - 7) 0
    let s0 := rotr32 7 w15 ^^^ rotr32 18 w15 ^^^ (w15 >>> 3)
    let s1 := rotr32 17 w2 ^^^ rotr32 19 w2 ^^^ (w2 >>> 10)
    shaExtendAux k (acc ++ [(w16 + s0 + w7 + s1) % 4294967296])

structure ShaState where
  a : Nat
  b : Nat
  c : Nat
  d : Nat
  e : Nat
  f : Nat
  g : Nat
  hh : Nat
deriving Repr

/-- One compression round. -/
def shaStep (st : ShaState) (kw : Nat × Nat) : ShaState :=
  let S1 := rotr32 6 st.e ^^^ rotr32 11 st.e ^^^ rotr32 25 st.e
  let ch := (st.e &&& st.f) ^^^ ((st.e ^^^ 4294967295) &&& st.g)
  let temp1 := (st.hh + S1 + ch + kw.1 + kw.2) % 4294967296
  let S0 := rotr32 2 st.a ^^^ rotr32 13 st.a ^^^ rotr32 22 st.a
  let maj := (st.a &&& st.b) ^^^ (st.a &&& st.c) ^^^ (st.b &&& st.c)
  let temp2 := (S0 + maj) % 4294967296
  ⟨(temp1 + temp2) % 4294967296, st.a, st.b, st.c,
   (st.d + temp1) % 4294967296, st.e, st.f, st.g⟩

def shaCompressBlock (H : List Nat) (block : List Nat) : List Nat :=
  let ws := shaExtendAux 48 (beWords block)
  let st0 : ShaState :=
    ⟨H.getD 0 0, H.getD 1 0, H.getD 2 0, H.getD 3 0,
     H.getD 4 0, H.getD 5 0, H.getD 6 0, H.getD 7 0⟩
  let st := (shaK.zip ws).foldl shaStep st0
  [add32 (H.getD 0 0) st.a, add32 (H.getD 1 0) st.b, add32 (H.getD 2 0) st.c,
   add32 (H.getD 3 0) st.d, add32 (H.getD 4 0) st.e, add32 (H.getD 5 0) st.f,
   add32 (H.getD 6 0) st.g, add32 (H.getD 7 0) st.hh]

def be64Bytes (n : Nat) : List Nat :=
  [(n >>> 56) % 256, (n >>> 48) % 256, (n >>> 40) % 256, (n >>> 32) % 256,
   (n >>> 24) % 256, (n >>> 16) % 256, (n >>> 8) % 256, n % 256]

def be32Bytes (w : Nat) : List Nat :=
  [(w >>> 24) % 256, (w >>> 16) % 256, (w >>> 8) % 256, w % 256]

def wordsToBytesBE : List Nat → List Nat
  | [] => []
  | w :: rest => be32Bytes w ++ wordsToBytesBE rest

/-- Merkle–Damgård padding: `0x80`, zeros to 56 mod 64, 64-bit big-endian bit
length. -/
def sha256Pad (msg : List Nat) : List Nat :=
  let L := msg.length
  let k := (64 + 56 - (L + 1) % 64) % 64
  msg ++ 128 :: (List.replicate k 0 ++ be64Bytes (L * 8))

def chunks64Aux : Nat → List Nat → List (List Nat)
  | 0, _ => []
  | _, [] => []
  | fuel + 1, l => l.take 64 :: chunks64Aux fuel (l.drop 64)

def sha256 (msg : List Nat) : List Nat :=
  let padded := sha256Pad msg
  wordsToBytesBE ((chunks64Aux padded.length padded).foldl shaCompressBlock shaH0)

/-- HMAC-SHA256 (RFC 2104): hash over-long keys, zero-pad to the 64-byte block
size, XOR with the inner/outer pads. -/
def hmacSha256 (key msg : List Nat) : List Nat :=
  let k0 := if key.length > 64 then sha256 key else key
  let k1 := k0 ++ List.replicate (64 - k0.length) 0
  let ipadKey := k1.map (fun b => b ^^^ 54)
  let opadKey := k1.map (fun b => b ^^^ 92)
  sha256 (opadKey ++ sha256 (ipadKey ++ msg))

/-- `hex::encode`: two lowercase hex digits per byte. -/
def hexEncodeBytes : List Nat → List Char
  | [] => []
  | b :: rest => hexDigit (b / 16) :: hexDigit (b % 16) :: hexEncodeBytes rest

/-! ## Signature util (`signature_utils.rs`) -/

/-- `generate_signature`: lowercase hex of
HMAC-SHA256(secret, client_id ‖ decimal(expiry) ‖ url). -/
def generate_signature (secret client_id : List Char) (expiry : Int)
    (url : List Char) : List Char :=
  let message := client_id ++ intToDec expiry ++ url
  hexEncodeBytes (hmacSha256 (utf8Encode secret) (utf8Encode message))

/-- `verify_signature`: reject when `now > expiry`; otherwise regenerate and
compare the UTF-8 bytes — equal length, then an OR-fold of the XORs must be
zero. -/
def verify_signature (secret : List Char) (now : Int) (client_id : List Char)
    (expiry : Int) (url : List Char) (signature : List Char) : Bool :=
  if now > expiry then false
  else
    let expected := generate_signature secret client_id expiry url
    let sb := utf8Encode signature
    let eb := utf8Encode expected
    sb.length == eb.length &&
      ((sb.zip eb).foldl (fun acc p => acc ||| (p.1 ^^^ p.2)) 0 == 0)

theorem nat_or_eq_zero {a b : Nat} (h : a ||| b = 0) : a = 0 ∧ b = 0 := by
  have hbit : ∀ i, a.testBit i = false ∧ b.testBit i = false := by
    intro i
    have h2 := congrArg (fun x => Nat.testBit x i) h
    simp only [Nat.testBit_lor] at h2
    rw [Nat.zero_testBit] at h2
    exact Bool.or_eq_false_iff.mp h2
  constructor <;> apply Nat.eq_of_testBit_eq <;> intro i <;>
    simp [(hbit i).1, (hbit i).2, Nat.zero_testBit]

theorem zip_self_xor_fold_zero : ∀ (l : List Nat),
    ((l.zip l).foldl (fun acc p => acc ||| (p.1 ^^^ p.2)) 0) = 0
  | [] => rfl
  | a :: l => by
    show ((l.zip l).foldl (fun acc p => acc ||| (p.1 ^^^ p.2)) (0 ||| (a ^^^ a))) = 0
    rw [Nat.xor_self, Nat.or_zero]
    exact zip_self_xor_fold_zero l

theorem xor_fold_acc_zero : ∀ (l : List (Nat × Nat)) (acc : Nat),
    (l.foldl (fun acc p => acc ||| (p.1 ^^^ p.2)) acc) = 0 → acc = 0
  | [], acc => fun h => h
  | p :: l, acc => fun h => by
    have := xor_fold_acc_zero l (acc ||| (p.1 ^^^ p.2)) h
    exact (nat_or_eq_zero this).1

theorem xor_fold_zero_eq : ∀ (l1 l2 : List Nat), l1.length = l2.length →
    ((l1.zip l2).foldl (fun acc p => acc ||| (p.1 ^^^ p.2)) 0) = 0 → l1 = l2
  | [], [], _, _ => rfl
  | [], _ :: _, h, _ => by cases h
  | _ :: _, [], h, _ => by cases h
  | a :: l1, b :: l2, h, hf => by
    have hfold : ((l1.zip l2).foldl (fun acc p => acc ||| (p.1 ^^^ p.2))
        (0 ||| (a ^^^ b))) = 0 := hf
    have hacc : (0 ||| (a ^^^ b)) = 0 := xor_fold_acc_zero _ _ hfold
    have hab : a = b := by
      have := (nat_or_eq_zero hacc).2
      exact Nat.xor_eq_zero.mp this
    have htail : l1 = l2 := by
      apply xor_fold_zero_eq l1 l2 (by simpa using h)
      rw [hacc] at hfold
      exact hfold
    rw [hab, htail]

/-- C3: a freshly generated signature verifies while `now ≤ expiry`; any
signature is rejected once `now > expiry`; a signature that verifies is
byte-for-byte the regenerated one; and the signature is the lowercase hex of
the HMAC-SHA256 over `client_id ‖ decimal(expiry) ‖ url`. -/
theorem C3_signature_verification (secret cid url sig : List Char)
    (expiry now : Int) :
    (now ≤ expiry →
      verify_signature secret now cid expiry url
        (generate_signature secret cid expiry url) = true) ∧
    (expiry < now → verify_signature secret now cid expiry url sig = false) ∧
    (verify_signature secret now cid expiry url sig = true →
      sig = generate_signature secret cid expiry url) ∧
    generate_signature secret cid expiry url =
      hexEncodeBytes (hmacSha256 (utf8Encode secret)
        (utf8Encode (cid ++ intToDec expiry ++ url))) := by
  refine ⟨?_, ?_, ?_, rfl⟩
  · intro hle
    unfold verify_signature
    rw [if_neg (by omega : ¬ (now > expiry))]
    simp only [beq_self_eq_true, Bool.true_and]
    rw [zip_self_xor_fold_zero]
    rfl
  · intro hlt
    unfold verify_signature
    rw [if_pos (by omega : now > expiry)]
  · intro hv
    unfold verify_signature at hv
    by_cases hlt : now > expiry
    · rw [if_pos hlt] at hv
      cases hv
    · rw [if_neg hlt] at hv
      have hand := Bool.and_eq_true_iff.mp hv
      have hlen : (utf8Encode sig).length =
          (utf8Encode (generate_signature secret cid expiry url)).length :=
        eq_of_beq hand.1
      have hfold : (((utf8Encode sig).zip
          (utf8Encode (generate_signature secret cid expiry url))).foldl
            (fun acc p => acc ||| (p.1 ^^^ p.2)) 0) = 0 :=
        eq_of_beq hand.2
      exact utf8Encode_injective _ _ (xor_fold_zero_eq _ _ hlen hfold)

/-- Witness for C3 with the test suite's literal inputs (`test_secret`,
`client123`, `https://example.com`). -/
theorem C3_signature_verification_witness :
    verify_signature "test_secret".data 0 "client123".data 5
      "https://example.com".data
      (generate_signature "test_secret".data "client123".data 5
        "https://example.com".data) = true ∧
    verify_signature "test_secret".data 9 "client123".data 5
      "https://example.com".data "invalid".data = false :=
  ⟨(C3_signature_verification "test_secret".data "client123".data
      "https://example.com".data
      (generate_signature "test_secret".data "client123".data 5
        "https://example.com".data) 5 0).1 (by decide),
   (C3_signature_verification "test_secret".data "client123".data
      "https://example.com".data "invalid".data 5 9).2.1 (by decide)⟩

/-! ## ChaCha20 (the `chacha20` crate used by `ppvsu_services.rs`),
implemented from RFC 8439. -/

def rotl32 (n x : Nat) : Nat := ((x <<< n) % 4294967296) ||| (x >>> (32 - n))

def chachaQR (a b c d : Nat) : Nat × Nat × Nat × Nat :=
  let a := (a + b) % 4294967296
  let d := rotl32 16 (d ^^^ a)
  let c := (c + d) % 4294967296
  let b := rotl32 12 (b ^^^ c)
  let a := (a + b) % 4294967296
  let d := rotl32 8 (d ^^^ a)
  let c := (c + d) % 4294967296
  let b := rotl32 7 (b ^^^ c)
  (a, b, c, d)

structure ChaState where
  x0 : Nat
  x1 : Nat
  x2 : Nat
  x3 : Nat
  x4 : Nat
  x5 : Nat
  x6 : Nat
  x7 : Nat
  x8 : Nat
  x9 : Nat
  x10 : Nat
  x11 : Nat
  x12 : Nat
  x13 : Nat
  x14 : Nat
  x15 : Nat
deriving Repr

def chachaDoubleRound (s : ChaState) : ChaState :=
  let (a0, a4, a8, a12) := chachaQR s.x0 s.x4 s.x8 s.x12
  let (a1, a5, a9, a13) := chachaQR s.x1 s.x5 s.x9 s.x13
  let (a2, a6, a10, a14) := chachaQR s.x2 s.x6 s.x10 s.x14
  let (a3, a7, a11, a15) := chachaQR s.x3 s.x7 s.x11 s.x15
  let (b0, b5, b10, b15) := chachaQR a0 a5 a10 a15
  let (b1, b6, b11, b12) := chachaQR a1 a6 a11 a12
  let (b2, b7, b8, b13) := chachaQR a2 a7 a8 a13
  let (b3, b4, b9, b14) := chachaQR a3 a4 a9 a14
  ⟨b0, b1, b2, b3, b4, b5, b6, b7, b8, b9, b10, b11, b12, b13, b14, b15⟩

def chachaRounds : Nat → ChaState → ChaState
  | 0, s => s
  | k + 1, s => chachaRounds k (chachaDoubleRound s)

/-- Little-endian 32-bit word `i` of a byte list. -/
def leWord (l : List Nat) (i : Nat) : Nat :=
  l.getD (4 * i) 0 + 256 * l.getD (4 * i + 1) 0 + 65536 * l.getD (4 * i + 2) 0 +
    16777216 * l.getD (4 * i + 3) 0

def leBytes (w : Nat) : List Nat :=
  [w % 256, w / 256 % 256, w / 65536 % 256, w / 16777216 % 256]

def chachaInit (key : List Nat) (counter : Nat) (nonce : List Nat) : ChaState :=
  ⟨1634760805, 857760878, 2036477234, 1797285236,
   leWord key 0, leWord key 1, leWord key 2, leWord key 3,
   leWord key 4, leWord key 5, leWord key 6, leWord key 7,
   counter % 4294967296,
   leWord nonce 0, leWord nonce 1, leWord nonce 2⟩

/-- One 64-byte ChaCha20 keystream block at the given counter. -/
def chachaBlock (key : List Nat) (counter : Nat) (nonce : List Nat) : List Nat :=
  let s0 := chachaInit key counter nonce
  let s := chachaRounds 10 s0
  leBytes (add32 s.x0 s0.x0) ++ leBytes (add32 s.x1 s0.x1) ++
  leBytes (add32 s.x2 s0.x2) ++ leBytes (add32 s.x3 s0.x3) ++
  leBytes (add32 s.x4 s0.x4) ++ leBytes (add32 s.x5 s0.x5) ++
  leBytes (add32 s.x6 s0.x6) ++ leBytes (add32 s.x7 s0.x7) ++
  leBytes (add32 s.x8 s0.x8) ++ leBytes (add32 s.x9 s0.x9) ++
  leBytes (add32 s.x10 s0.x10) ++ leBytes (add32 s.x11 s0.x11) ++
  leBytes (add32 s.x12 s0.x12) ++ leBytes (add32 s.x13 s0.x13) ++
  leBytes (add32 s.x14 s0.x14) ++ leBytes (add32 s.x15 s0.x15)

/-- Keystream bytes: `count` consecutive blocks starting at `counter`. -/
def keystreamBlocks (key nonce : List Nat) (counter : Nat) : Nat → List Nat
  | 0 => []
  | k + 1 => chachaBlock key counter nonce ++ keystreamBlocks key nonce (counter + 1) k

theorem chachaBlock_length (key : List Nat) (c : Nat) (nonce : List Nat) :
    (chachaBlock key c nonce).length = 64 := by
  simp [chachaBlock, leBytes]

/-! ## Lossy UTF-8 (`String::from_utf8_lossy`) -/

/-- Length of the maximal subpart replaced by one `U+FFFD` when strict
decoding fails at the head (the WHATWG / Rust `Utf8Error::error_len`
convention). -/
def utf8ErrorLen (l : List Nat) : Nat :=
  match l with
  | [] => 1
  | b0 :: rest =>
    if b0 < 224 then 1
    else if b0 < 240 then
      match rest with
      | b1 :: _ =>
        if (if b0 = 224 then 160 ≤ b1 ∧ b1 < 192
            else if b0 = 237 then 128 ≤ b1 ∧ b1 < 160
            else 128 ≤ b1 ∧ b1 < 192) then 2 else 1
      | [] => 1
    else if b0 < 245 then
      match rest with
      | b1 :: rest1 =>
        if (if b0 = 240 then 144 ≤ b1 ∧ b1 < 192
            else if b0 = 244 then 128 ≤ b1 ∧ b1 < 144
            else 128 ≤ b1 ∧ b1 < 192) then
          match rest1 with
          | b2 :: _ => if 128 ≤ b2 ∧ b2 < 192 then 3 else 2
          | [] => 2
        else 1
      | [] => 1
    else 1

/-- `String::from_utf8_lossy` as a character list: valid sequences decode,
each maximal invalid subpart becomes one `U+FFFD`. -/
def utf8LossyAux : Nat → List Nat → List Char
  | _, [] => []
  | 0, _ :: _ => []
  | fuel + 1, b :: rest =>
    match utf8DecodeOne (b :: rest) with
    | some (c, rest') => c :: utf8LossyAux fuel rest'
    | none => Char.ofNat 65533 ::
        utf8LossyAux fuel ((b :: rest).drop (utf8ErrorLen (b :: rest)))

def utf8LossyDecode (l : List Nat) : List Char := utf8LossyAux l.length l

/-! ## Stream-URL decryption (`ppvsu_services.rs`, `chacha20_decrypt`) -/

/-- The URL-extraction step at the end of `chacha20_decrypt`: everything up to
and including the first `.m3u8`, else the longest printable non-control ASCII
prefix.  (Rust's `find` returns a byte index; since the pattern is pure ASCII
it can only match at a character boundary, so the byte slice
`plaintext[..idx+5]` coincides with this character-level prefix.) -/
def extractStreamUrl (cs : List Char) : List Char :=
  match findSublistIdx ".m3u8".data cs with
  | some i => cs.take (i + 5)
  | none => cs.takeWhile (fun c => decide ((c.toNat ≤ 127) ∧
      ¬ (c.toNat < 32 ∨ c.toNat = 127)))

/-- `chacha20_decrypt`: the first 12 decoded bytes are the nonce, the rest is
the ciphertext; the cipher is keyed with the UTF-8 bytes of the `island`
header and seeked to byte offset 64 (`cipher.seek(64)`), which this embedding
renders as dropping the first 64 bytes of the counter-0 keystream. -/
def chacha20_decrypt (decoded_data : List Nat) (key : List Char) :
    Except AppError (List Char) :=
  if decoded_data.length < 12 then
    .error (.InternalServerErrorWithContext "decoded data too short to contain nonce")
  else
    let key_bytes := utf8Encode key
    if key_bytes.length ≠ 32 then
      .error (.InternalServerErrorWithContext
        ("key must be 32 bytes, got " ++ toString key_bytes.length))
    else
      let nonce := decoded_data.take 12
      let ciphertext := decoded_data.drop 12
      let ks := (keystreamBlocks key_bytes nonce 0 (ciphertext.length / 64 + 2)).drop 64
      let buffer := List.zipWith (fun a b => a ^^^ b) ciphertext ks
      .ok (extractStreamUrl (utf8LossyDecode buffer))

/-- C8: with a 32-byte key and at least 12 decoded bytes, `chacha20_decrypt`
takes `d[0..12]` as the nonce and XORs `d[12..]` against the keystream
starting at block counter 1 (byte offset 64), returning the `.m3u8`-prefix
(or printable-ASCII fallback) of the lossily decoded plaintext; a wrong key
length or fewer than 12 bytes yields an Internal error.  Concrete instances
of both extraction modes are included. -/
theorem C8_chacha20_counter1 (key : List Char) (d : List Nat) :
    chacha20_decrypt d key =
      (if d.length < 12 then
        Except.error (.InternalServerErrorWithContext
          "decoded data too short to contain nonce")
      else if (utf8Encode key).length ≠ 32 then
        Except.error (.InternalServerErrorWithContext
          ("key must be 32 bytes, got " ++ toString (utf8Encode key).length))
      else
        Except.ok (extractStreamUrl (utf8LossyDecode
          (List.zipWith (fun a b => a ^^^ b) (d.drop 12)
            (keystreamBlocks (utf8Encode key) (d.take 12) 1
              ((d.drop 12).length / 64 + 1)))))) ∧
    extractStreamUrl "https://e.invalid/s.m3u8XYZ".data =
      "https://e.invalid/s.m3u8".data ∧
    extractStreamUrl ("ok".data ++ [Char.ofNat 0] ++ "rest".data) = "ok".data := by
  refine ⟨?_, by decide, by decide⟩
  simp only [chacha20_decrypt]
  by_cases h1 : d.length < 12
  · rw [if_pos h1, if_pos h1]
  · rw [if_neg h1, if_neg h1]
    by_cases h2 : (utf8Encode key).length ≠ 32
    · rw [if_pos h2, if_pos h2]
    · rw [if_neg h2, if_neg h2]
      have hks : (keystreamBlocks (utf8Encode key) (d.take 12) 0
          ((d.drop 12).length / 64 + 2)).drop 64 =
          keystreamBlocks (utf8Encode key) (d.take 12) 1
            ((d.drop 12).length / 64 + 1) := by
        show (chachaBlock (utf8Encode key) 0 (d.take 12) ++
          keystreamBlocks (utf8Encode key) (d.take 12) 1
            ((d.drop 12).length / 64 + 1)).drop 64 = _
        rw [← chachaBlock_length (utf8Encode key) 0 (d.take 12), List.drop_left]
      rw [hks]

/-! ## Proxy GET control flow (`proxy_controller.rs`, `proxy_get`, lines
159–206): URL decode, scheme validation, then the upstream request.  The
upstream send and the response pipeline are oracles of the model; the proxy
cache contents are passed in so that the claim about them can be stated. -/

/-- `proxy_get` up to the upstream exchange, with the number of upstream GET
requests issued.  `segCache` is the `pcache:seg:<sha256(url)>` entry for the
decoded URL; the handler never reads it (no call to `get_cached` or
`wait_for_inflight` exists in `proxy_get`), which is the point of C1.
`upstream target = none` models a transport failure
(`record_error` is spawned in the background and the handler returns 500);
`processResponse` stands for the entire post-send pipeline. -/
def proxy_get_flow {ρ σ : Type} (urlParam : List Char)
    (segCache : Option (List Nat))
    (upstream : List Char → Option ρ)
    (processResponse : ρ → Except AppError σ) : Except AppError σ × Nat :=
  match decode_url urlParam with
  | .error e => (.error e, 0)
  | .ok target =>
    if ¬ ("http://".data.isPrefixOf target ∨ "https://".data.isPrefixOf target) then
      (.error (.BadRequest "Invalid URL format"), 0)
    else
      match upstream target with
      | none => (.error (.InternalServerErrorWithContext "Request failed"), 1)
      | some resp => (processResponse resp, 1)

/-- C1 (code bug): with `pcache:seg:{sha256("https://u/s.ts")}` populated
(1024 bytes) and the signed URL token of `https://u/s.ts` as the `url`
parameter, the handler still issues exactly one upstream GET — the upstream
call count is 1, not 0, for every upstream oracle and response pipeline,
because `proxy_get` never consults the proxy cache. -/
theorem C1_cache_hit_still_fetches {ρ σ : Type}
    (upstream : List Char → Option ρ) (processResponse : ρ → Except AppError σ) :
    (proxy_get_flow "aHR0cHM6Ly91L3MudHM".data
      (some (List.replicate 1024 0)) upstream processResponse).2 = 1 ∧
    ¬ ((proxy_get_flow "aHR0cHM6Ly91L3MudHM".data
      (some (List.replicate 1024 0)) upstream processResponse).2 = 0) := by
  have hdec : decode_url "aHR0cHM6Ly91L3MudHM".data = .ok "https://u/s.ts".data := by
    rfl
  have h1 : (proxy_get_flow "aHR0cHM6Ly91L3MudHM".data
      (some (List.replicate 1024 0)) upstream processResponse).2 = 1 := by
    unfold proxy_get_flow
    simp only [hdec]
    rw [if_neg (by decide)]
    cases upstream "https://u/s.ts".data <;> rfl
  exact ⟨h1, by rw [h1]; decide⟩

/-! ## Prefetch interleaving model (`proxy_cache_services.rs`,
`prefetch_segments` / `get_cached`) -/

/-- The two kinds of concurrent callers in C2. -/
inductive SfProcKind where
  | prefetch
  | getCached
deriving DecidableEq, Repr

/-- Shared state for one URL `u`: whether its segment key exists in Redis,
whether its notifier is registered in the in-flight map, how many upstream
GETs to `u` have been issued, and each process's program counter. -/
structure SfState where
  cached : Bool
  inflight : Bool
  gets : Nat
  procs : List (SfProcKind × Nat)
deriving Repr, DecidableEq

/-- One atomic step of a process, as the source orders them.
`prefetch_segments([u])`: pc 0 = the `EXISTS` pipeline (skips to done when the
segment is cached); pc 1 = register the notifier (`entry().or_insert_with`,
idempotent, but it does **not** skip already-inflight URLs); pc 2 = the
upstream GET; pc 3 = `SETEX`; pc 4 = remove the notifier and
`notify_waiters`.  `get_cached(u)`: pc 0 = the GET pipeline, which issues no
upstream request.  Returns the new program counter and shared state. -/
def sfStepProc : SfProcKind → Nat → SfState → Nat × SfState
  | .getCached, 0, st => (1, st)
  | .prefetch, 0, st => if st.cached then (5, st) else (1, st)
  | .prefetch, 1, st => (2, { st with inflight := true })
  | .prefetch, 2, st => (3, { st with gets := st.gets + 1 })
  | .prefetch, 3, st => (4, { st with cached := true })
  | .prefetch, 4, st => (5, { st with inflight := false })
  | _, pc, st => (pc, st)

def sfStep (st : SfState) (i : Nat) : SfState :=
  match st.procs.get? i with
  | some (k, pc) =>
    let r := sfStepProc k pc st
    { r.2 with procs := st.procs.set i (k, r.1) }
  | none => st

def sfRun (st : SfState) (sched : List Nat) : SfState := sched.foldl sfStep st

def sfInit (ks : List SfProcKind) : SfState :=
  ⟨false, false, 0, ks.map (fun k => (k, 0))⟩

/-- C2 counterexample: two concurrent `prefetch_segments([u])` invocations on
an uncached `u`, interleaved so that both pass the `EXISTS` check before
either has cached the segment, issue **two** upstream GETs to `u`. -/
theorem C2_counterexample_double_fetch :
    (sfRun (sfInit [.prefetch, .prefetch]) [0, 1, 0, 0, 0, 0, 1, 1, 1, 1]).gets = 2 ∧
    ¬ ((sfRun (sfInit [.prefetch, .prefetch]) [0, 1, 0, 0, 0, 0, 1, 1, 1, 1]).gets ≤ 1) := by
  decide

theorem mem_set_of_all {α : Type} (P : α → Prop) :
    ∀ (l : List α) (j : Nat) (a : α), (∀ x ∈ l, P x) → P a → ∀ y ∈ l.set j a, P y
  | [], _, _, _, _, _, hy => by cases hy
  | x :: l, 0, a, h, ha, y, hy => by
    rcases List.mem_cons.mp hy with rfl | hy'
    · exact ha
    · exact h y (List.mem_cons_of_mem x hy')
  | x :: l, j + 1, a, h, ha, y, hy => by
    rcases List.mem_cons.mp hy with rfl | hy'
    · exact h y (List.mem_cons_self y l)
    · exact mem_set_of_all P l j a (fun z hz => h z (List.mem_cons_of_mem x hz)) ha y hy'

/-- Invariant for a single `prefetch_segments([u])` invocation running next to
any number of `get_cached(u)` callers: process 0 is the prefetcher, everyone
else only reads, at most one GET has happened, and none has happened before
the prefetcher is past its GET step. -/
def SfInv (st : SfState) : Prop :=
  ∃ p0 rest, st.procs = (SfProcKind.prefetch, p0) :: rest ∧
    (∀ pr ∈ rest, pr.1 = SfProcKind.getCached) ∧
    st.gets ≤ 1 ∧ (p0 ≤ 2 → st.gets = 0)

theorem sfInv_step (st : SfState) (i : Nat) (h : SfInv st) : SfInv (sfStep st i) := by
  obtain ⟨p0, rest, hprocs, hrest, hle, hzero⟩ := h
  unfold sfStep
  rw [hprocs]
  cases i with
  | zero =>
    simp only [List.get?]
    rcases p0 with _ | _ | _ | _ | _ | p5
    · by_cases hc : st.cached
      · have hr : sfStepProc SfProcKind.prefetch 0 st = (5, st) := by
          simp [sfStepProc, hc]
        rw [hr]
        exact ⟨5, rest, rfl, hrest, hle, fun hcon => absurd hcon (by omega)⟩
      · have hr : sfStepProc SfProcKind.prefetch 0 st = (1, st) := by
          simp [sfStepProc, hc]
        rw [hr]
        exact ⟨1, rest, rfl, hrest, hle, fun _ => hzero (by omega)⟩
    · exact ⟨2, rest, rfl, hrest, hle, fun _ => hzero (by omega)⟩
    · have hg : st.gets = 0 := hzero (by omega)
      refine ⟨3, rest, rfl, hrest, ?_, fun hcon => absurd hcon (by omega)⟩
      show st.gets + 1 ≤ 1
      omega
    · exact ⟨4, rest, rfl, hrest, hle, fun hcon => absurd hcon (by omega)⟩
    · exact ⟨5, rest, rfl, hrest, hle, fun hcon => absurd hcon (by omega)⟩
    · exact ⟨p5 + 5, rest, rfl, hrest, hle, fun hcon => absurd hcon (by omega)⟩
  | succ j =>
    simp only [List.get?]
    cases hj : rest.get? j with
    | none => exact ⟨p0, rest, hprocs, hrest, hle, hzero⟩
    | some pr =>
      obtain ⟨k, pc⟩ := pr
      have hk : k = SfProcKind.getCached :=
        hrest (k, pc) (List.get?_mem hj)
      subst hk
      rcases pc with _ | pc'
      · exact ⟨p0, rest.set j (SfProcKind.getCached, 1), rfl,
          mem_set_of_all _ rest j _ hrest rfl, hle, hzero⟩
      · exact ⟨p0, rest.set j (SfProcKind.getCached, pc' + 1), rfl,
          mem_set_of_all _ rest j _ hrest rfl, hle, hzero⟩

theorem sfInv_run : ∀ (sched : List Nat) (st : SfState), SfInv st →
    SfInv (sfRun st sched)
  | [], _, h => h
  | i :: sched, st, h => sfInv_run sched (sfStep st i) (sfInv_step st i h)

/-- C2 (amended): one `prefetch_segments([u])` invocation, concurrent with any
number of `get_cached(u)` callers and under any interleaving, issues at most
one upstream GET to `u`. -/
theorem C2_single_invocation_single_flight (g : Nat) (sched : List Nat) :
    (sfRun (sfInit (SfProcKind.prefetch :: List.replicate g SfProcKind.getCached))
      sched).gets ≤ 1 := by
  have hinit : SfInv (sfInit (SfProcKind.prefetch ::
      List.replicate g SfProcKind.getCached)) := by
    refine ⟨0, (List.replicate g SfProcKind.getCached).map (fun k => (k, 0)),
      rfl, ?_, Nat.zero_le 1, fun _ => rfl⟩
    intro pr hpr
    obtain ⟨k, hk, rfl⟩ := List.mem_map.mp hpr
    have : k = SfProcKind.getCached := List.eq_of_mem_replicate hk
    rw [this]
  obtain ⟨p0, rest, _, _, hle, _⟩ := sfInv_run sched _ hinit
  exact hle
